import Mathlib

/-!
Verification of `src/frontend/radeco_containers.rs` (radeco-lib analysis
containers and loaders) against its natural-language specification.

The Rust source is shallowly embedded: `u64` addresses and petgraph
`NodeIndex` values become `Nat` (graphs here are tiny, no overflow is
exercised), `BTreeMap<u64, V>` becomes a key-sorted association list,
`HashMap<u64, ImportInfo>` is modelled by the same association-list map
(every operation the loader performs on it is per-key or a per-entry map,
so iteration order is irrelevant), fallible calls (`unwrap`, `expect`,
`unimplemented!`) become `Option`/`Except`, and `radeco_warn!` fallbacks
keep the field at its default exactly as the source does.

Types and functions of this repository that the loader calls but whose
definitions are not under `src/` (`ImportInfo`, `SSAConstruct`,
`SubRegisterFile`, `llanalyzer`, the `Source` trait and the r2api structs)
are modelled from the spec; each such definition carries a doc comment
saying so.
-/

namespace Radeco

/-- r2api `LSymbolType` (external r2api struct): only the `Func` kind is
inspected by the code under verification; all other kinds are collapsed. -/
inductive LSymbolType where
  | Func
  | Other
deriving DecidableEq

/-- r2api `LSymbolInfo` (external r2api struct): the four fields read by
`loader_defaults::strat_use_symbols`; the remaining fields are never read
by the code under verification. -/
structure LSymbolInfo where
  stype : Option LSymbolType := none
  name : Option String := none
  vaddr : Option Nat := none
  size : Option Nat := none
deriving DecidableEq

/-- r2api `LOpInfo` (external r2api struct): stored opaquely by the loader,
never inspected; one representative field. -/
structure LOpInfo where
  opcode : Option String := none
deriving DecidableEq

/-- r2api `LImportInfo` (external r2api struct): the two fields read by
`ModuleLoader::load` when stubbing imports. -/
structure LImportInfo where
  plt : Option Nat := none
  name : Option String := none
deriving DecidableEq

/-- Modelled from the spec: `FunctionInfo` entries of `Source::functions()`
(`frontend::radeco_source`, not under `src/`): "each entry carries at
minimum `offset`, `size`, `name`, optional `datarefs`, and (for call-graph
construction) the callees set needed by the helper".  The callees set is
modelled as a list of `(callsite, call target)` pairs. -/
structure FunctionInfo where
  offset : Option Nat := none
  size : Option Nat := none
  name : Option String := none
  datarefs : Option (List Nat) := none
  callrefs : List (Nat × Nat) := []
deriving DecidableEq

/-- Modelled from the spec: the register profile returned by
`Source::register_profile()` (external r2api struct `LRegInfo`), reduced to
what the register-file contract of the spec exposes: the physical register
names and the alias table with its id lookup. -/
structure LRegInfo where
  regs : List String := []
  alias_info : List (String × String) := []
  reg_ids : List (String × Nat) := []
deriving DecidableEq

/-- Modelled from the spec: `SubRegisterFile` (`middle::regfile`, not under
`src/`): "exposes an alias table (iterable pairs of
`(alias, physical_register_name)`) and `register_id_by_alias(alias)`". -/
structure SubRegisterFile where
  alias_info : List (String × String) := []
  reg_ids : List (String × Nat) := []
deriving DecidableEq

/-- Modelled from the spec: `SubRegisterFile::new` builds the register file
from the register profile. -/
def SubRegisterFile.new (p : LRegInfo) : SubRegisterFile :=
  { alias_info := p.alias_info, reg_ids := p.reg_ids }

/-- Modelled from the spec: `register_id_by_alias(alias) → u64` (optional:
the source stores it into an `Option<u64>` field). -/
def SubRegisterFile.register_id_by_alias (srf : SubRegisterFile) (al : String) : Option Nat :=
  (srf.reg_ids.find? (fun kv => kv.fst = al)).map (fun kv => kv.snd)

/-! ### A `BTreeMap<u64, V>` model: key-sorted association list -/

/-- `BTreeMap<u64, V>`: a list of `(key, value)` pairs kept in strictly
ascending key order by `insert`. -/
abbrev BTreeMap (α : Type) := List (Nat × α)

namespace BTreeMap

/-- `BTreeMap::insert`: insert or overwrite, keeping ascending key order. -/
def insert (k : Nat) (v : α) : BTreeMap α → BTreeMap α
  | [] => [(k, v)]
  | (k', v') :: rest =>
    if k < k' then (k, v) :: (k', v') :: rest
    else if k = k' then (k, v) :: rest
    else (k', v') :: insert k v rest

/-- `BTreeMap::get`: first entry with the given key. -/
def find? (k : Nat) : BTreeMap α → Option α
  | [] => none
  | (k', v) :: rest => if k' = k then some v else find? k rest

/-- `BTreeMap::get_mut` followed by a field update: rewrite the (first)
entry at key `k` in place; no-op when the key is absent. -/
def modify (k : Nat) (f : α → α) : BTreeMap α → BTreeMap α
  | [] => []
  | (k', v) :: rest =>
    if k' = k then (k', f v) :: rest else (k', v) :: modify k f rest

/-- `BTreeMap::extend`: insert every entry of `b` (in order) into `a`,
overwriting on key collision. -/
def extend (a b : BTreeMap α) : BTreeMap α :=
  b.foldl (fun m kv => m.insert kv.fst kv.snd) a

/-- Per-value map that keeps keys: models iterating with `iter_mut` and
rewriting fields of each value. -/
def mapValues (f : Nat → α → α) (m : BTreeMap α) : BTreeMap α :=
  m.map (fun kv => (kv.fst, f kv.fst kv.snd))

/-- The well-formedness `insert` maintains: keys strictly ascending (hence
distinct). -/
def WF (m : BTreeMap α) : Prop :=
  List.Pairwise (fun a b => a.fst < b.fst) m

instance (m : BTreeMap α) : Decidable (WF m) := by
  unfold WF; infer_instance

end BTreeMap

/-! ### SSA storage (interface part consumed by the loader) -/

/-- `middle::ssa::ssa_traits::NodeType`, reduced to the only shape the code
under verification inspects: `Comment(String)` versus anything else. -/
inductive NodeType where
  | Comment (s : String)
  | OtherNT
deriving DecidableEq

/-- petgraph `NodeIndex::end()` — the sentinel index (`usize::MAX`). -/
def nodeIndexEnd : Nat := 2 ^ 64 - 1

/-- Modelled from the spec: the part of `SSAStorage`
(`middle::ssa::ssastorage`, not under `src/`) that the SSA contract of the
spec exposes to the loader: `entry_node()`, `exit_node()`,
`registers_in(node)`, `operands_of(node)`, `node_data(id)`.  Nodes are
`Nat` indices; the three tables are association lists.  The default value
(`SSAStorage::default()`) has no entry or exit node. -/
structure SSAStorage where
  entry : Option Nat := none
  exit_n : Option Nat := none
  reg_state : List (Nat × Nat) := []
  operands_tbl : List (Nat × List Nat) := []
  node_data_tbl : List (Nat × NodeType) := []
deriving DecidableEq

/-- SSA contract: `entry_node()`. -/
def SSAStorage.entry_node (s : SSAStorage) : Option Nat := s.entry

/-- SSA contract: `exit_node()`. -/
def SSAStorage.exit_node (s : SSAStorage) : Option Nat := s.exit_n

/-- SSA contract: `registers_in(node)` — the register-state node attached
to a block, if any. -/
def SSAStorage.registers_in (s : SSAStorage) (n : Nat) : Option Nat :=
  (List.find? (fun kv => kv.fst = n) s.reg_state).map (fun kv => kv.snd)

/-- SSA contract: `operands_of(node)`. -/
def SSAStorage.operands_of (s : SSAStorage) (n : Nat) : List Nat :=
  ((List.find? (fun kv => kv.fst = n) s.operands_tbl).map (fun kv => kv.snd)).getD []

/-- SSA contract: `node_data(id)`, reduced to the node type (the code reads
only `.map(|n| n.nt)`); `Err` becomes `none`. -/
def SSAStorage.node_data (s : SSAStorage) (n : Nat) : Option NodeType :=
  (List.find? (fun kv => kv.fst = n) s.node_data_tbl).map (fun kv => kv.snd)

/-! ### Bindings and functions -/

/-- `BindingType` of `radeco_containers.rs`. -/
inductive BindingType where
  | RegisterArgument (pos : Nat)
  | StackArgument (pos : Nat)
  | RegisterLocal
  | StackLocal (off : Nat)
  | Return
  | Unknown
deriving DecidableEq

/-- `BindingType::is_argument`. -/
def BindingType.is_argument : BindingType → Bool
  | BindingType.RegisterArgument _ => true
  | BindingType.StackArgument _ => true
  | _ => false

/-- `VarBinding` of `radeco_containers.rs`; `Default` gives
`btype = Unknown`, empty name, `ridx = None`, `idx = NodeIndex::default()`
(index 0). -/
structure VarBinding where
  btype : BindingType := BindingType.Unknown
  name : String := ""
  ridx : Option Nat := none
  idx : Nat := 0
deriving DecidableEq

/-- `RadecoFunction` of `radeco_containers.rs`, with `Default` field values
as in the derived Rust `Default`.  (`bindings` is the inner vector of the
`VarBindings` newtype.) -/
structure RadecoFunction where
  instructions : List LOpInfo := []
  is_recursive : Option Bool := none
  name : String := ""
  offset : Nat := 0
  size : Nat := 0
  datarefs : List Nat := []
  ssa : SSAStorage := {}
  cgid : Nat := 0
  bindings : List VarBinding := []
deriving DecidableEq

/-- Modelled from the spec: `ImportInfo` (`frontend::imports`, not under
`src/`): "a stub that behaves like a function for binding/SSA purposes",
keyed by PLT address, carrying the import name and an inner
`RadecoFunction` (`rfn`, behind a `RefCell` in Rust; loading is
single-threaded so the cell is flattened away). -/
structure ImportInfo where
  plt : Nat := 0
  name : String := ""
  rfn : RadecoFunction := {}
deriving DecidableEq

/-- Modelled from the spec: `ImportInfo::new_stub(plt, name)` materializes
an import stub "bearing the import name" whose `plt` field is the PLT
address used as its key; the inner function starts at its default. -/
def ImportInfo.new_stub (plt : Nat) (name : String) : ImportInfo :=
  { plt := plt, name := name, rfn := {} }

/-! ### Call graph -/

/-- `CallContextInfo` of `radeco_containers.rs`. -/
structure CallContextInfo where
  map : List (Nat × Nat) := []
  csite_node : Nat := 0
  csite : Nat := 0
deriving DecidableEq

/-- One edge of the petgraph `Graph<u64, CallContextInfo>`: stored source
and target node indices plus the edge weight. -/
structure CGEdge where
  src : Nat
  tgt : Nat
  weight : CallContextInfo
deriving DecidableEq

/-- `CallGraph = Graph<u64, CallContextInfo>`: node `i` carries weight
`node_weights[i]` (a function entry address); parallel edges are allowed
(`edges` is a plain list). -/
structure CallGraph where
  node_weights : List Nat := []
  edges : List CGEdge := []
deriving DecidableEq

/-- petgraph `edges_directed(idx, Direction::Incoming)`: the edges whose
target is `idx`, as edge references with their stored orientation
(`source()` is the stored source, `target()` is the stored target). -/
def CallGraph.edges_directed_incoming (g : CallGraph) (idx : Nat) : List CGEdge :=
  g.edges.filter (fun e => e.tgt = idx)

/-- petgraph `edges_directed(idx, Direction::Outgoing)`: the edges whose
source is `idx`. -/
def CallGraph.edges_directed_outgoing (g : CallGraph) (idx : Nat) : List CGEdge :=
  g.edges.filter (fun e => e.src = idx)

/-- `CGInfo::callers` as written in the source:
`edges_directed(idx, Incoming).map(|er| (er.weight().csite, er.target()))`. -/
def CallGraph.callers (g : CallGraph) (idx : Nat) : List (Nat × Nat) :=
  (g.edges_directed_incoming idx).map (fun er => (er.weight.csite, er.tgt))

/-- `CGInfo::callees` as written in the source:
`edges_directed(idx, Outgoing).map(|er| (er.weight().csite, er.target()))`. -/
def CallGraph.callees (g : CallGraph) (idx : Nat) : List (Nat × Nat) :=
  (g.edges_directed_outgoing idx).map (fun er => (er.weight.csite, er.tgt))

/-! ### Module, pipeline result, source -/

/-- `RadecoModule` of `radeco_containers.rs`, restricted to the fields that
the code under verification reads back after writing them (`symbols` feeds
`strat_use_symbols`; `imports`, `functions`, `callgraph` are the subjects
of the claims).  The write-only metadata fields (`sections`, `exports`,
`relocs`, `libs`, `entrypoint`, `name`, `path`) and the final `source`
handle are populated and never consulted by any later loader step, so they
are omitted from the model. -/
structure RadecoModule where
  symbols : List LSymbolInfo := []
  imports : BTreeMap ImportInfo := []
  callgraph : CallGraph := {}
  functions : BTreeMap RadecoFunction := []
deriving DecidableEq

/-- `FLResult` of `radeco_containers.rs`: accumulator of the
function-identification pipeline. -/
structure FLResult where
  functions : BTreeMap RadecoFunction := []
  new : Nat := 0
deriving DecidableEq

/-- Modelled from the spec: the `Source` capability set consumed by the
loader (`frontend::radeco_source`, not under `src/`): each query is
fallible (`Err` becomes `none`).  Queries whose results are only stored in
omitted `RadecoModule` fields (`sections`, `exports`, `relocs`,
`libraries`, `entrypoint`) are omitted with them. -/
structure Source where
  symbols : Option (List LSymbolInfo) := none
  imports : Option (List LImportInfo) := none
  functions : Option (List FunctionInfo) := none
  register_profile : Option LRegInfo := none
  disassemble_n_bytes : Nat → Nat → Option (List LOpInfo) := fun _ _ => none

/-! ### loader_defaults: the two built-in strategies

A strategy that would panic in Rust (an `unwrap` of `None`) returns `none`
here. -/

/-- `true` exactly on symbols matching
`if let Some(LSymbolType::Func) = f.stype`. -/
def isFuncSym (f : LSymbolInfo) : Bool :=
  match f.stype with
  | some LSymbolType.Func => true
  | _ => false

/-- The fold body of `strat_use_symbols`: build a default `RadecoFunction`,
unwrap `name`, `vaddr`, `size` of the symbol into it (a missing field is a
panic, modelled as `none`), insert it at its offset, bump the counter. -/
def symStep (acc : FLResult) (s : LSymbolInfo) : Option FLResult := do
  let name ← s.name
  let vaddr ← s.vaddr
  let size ← s.size
  let rfn : RadecoFunction := { name := name, offset := vaddr, size := size }
  pure { acc with
          functions := acc.functions.insert rfn.offset rfn
          new := acc.new + 1 }

/-- `loader_defaults::strat_use_symbols`: fold the `Func` symbols into a
fresh `FLResult`.  The `source` and `fl` arguments are ignored, as in the
source. -/
def strat_use_symbols (_source : Option Source) (_fl : FLResult) (rmod : RadecoModule) :
    Option FLResult :=
  (rmod.symbols.filter isFuncSym).foldlM symStep ({} : FLResult)

/-- The loop body of `strat_use_source`: build a default `RadecoFunction`,
unwrap `offset`, `size`, `name` of the source entry into it (a missing
field is a panic, modelled as `none`), insert it at its offset, bump the
counter. -/
def srcStep (new_fl : FLResult) (function : FunctionInfo) : Option FLResult := do
  let offset ← function.offset
  let size ← function.size
  let name ← function.name
  let rfn : RadecoFunction := { name := name, offset := offset, size := size }
  pure { new_fl with
          functions := new_fl.functions.insert rfn.offset rfn
          new := new_fl.new + 1 }

/-- `loader_defaults::strat_use_source`: with a source, fold its
`functions()` enumeration into a fresh `FLResult` (`Err` from `functions()`
leaves the fresh result empty); with no source, return `fl.clone()`. -/
def strat_use_source (source : Option Source) (fl : FLResult) (_rmod : RadecoModule) :
    Option FLResult :=
  match source with
  | some src =>
    match src.functions with
    | some functions => functions.foldlM srcStep ({} : FLResult)
    | none => some ({} : FLResult)
  | none => some fl

/-- `PredicatedLoader`: a strategy with its predicate (the trait's default
predicate is `true`, as used by the blanket closure impl). -/
structure PredicatedLoader where
  predicate : FLResult → Bool := fun _ => true
  strategy : Option Source → FLResult → RadecoModule → Option FLResult

/-- The `strat_use_symbols` closure, as pushed by `include_defaults`
(default predicate). -/
def useSymbolsLoader : PredicatedLoader := { strategy := strat_use_symbols }

/-- The `strat_use_source` closure, as pushed by `include_defaults`
(default predicate). -/
def useSourceLoader : PredicatedLoader := { strategy := strat_use_source }

/-! ### FunctionLoader -/

namespace FunctionLoader

/-- The body of the fold in `FunctionLoader::load`: if the predicate holds
on the accumulator, run the strategy and merge (`acc.new += fl.new;
acc.functions.extend(fl.functions)`); otherwise keep the accumulator. -/
def runStage (source : Option Source) (rmod : RadecoModule) (acc : FLResult)
    (f : PredicatedLoader) : Option FLResult :=
  if f.predicate acc then
    match f.strategy source acc rmod with
    | some fl =>
      some { functions := acc.functions.extend fl.functions, new := acc.new + fl.new }
    | none => none
  else
    some acc

/-- The fold of `FunctionLoader::load` started from an arbitrary
accumulator. -/
def loadFrom (acc : FLResult) (strategies : List PredicatedLoader)
    (source : Option Source) (rmod : RadecoModule) : Option FLResult :=
  strategies.foldlM (fun a f => runStage source rmod a f) acc

/-- `FunctionLoader::load`: left fold of the configured strategies starting
from `FLResult::default()`. -/
def load (strategies : List PredicatedLoader) (source : Option Source)
    (rmod : RadecoModule) : Option FLResult :=
  loadFrom ({} : FLResult) strategies source rmod

/-- `FunctionLoader::include_defaults`: push `strat_use_symbols`, then
`strat_use_source`, after the already-configured strategies. -/
def include_defaults (strategies : List PredicatedLoader) : List PredicatedLoader :=
  strategies ++ [useSymbolsLoader, useSourceLoader]

end FunctionLoader

/-! ### ModuleLoader::init_fn_bindings -/

/-- The alias array of `init_fn_bindings`:
`["A0", "A1", "A2", "A3", "A4", "A5", "SN"]`. -/
def aliasArr : List String := ["A0", "A1", "A2", "A3", "A4", "A5", "SN"]

/-- The snapshot-matching predicate of `init_fn_bindings`: the node's data
is `Ok` with node type `Comment(s)` and `s` equals the physical register
name. -/
def commentMatches (rfn : RadecoFunction) (pname : String) (ridx : Nat) : Bool :=
  match rfn.ssa.node_data ridx with
  | some (NodeType.Comment s) => s = pname
  | _ => false

/-- The body of the `filter_map` in `init_fn_bindings`.  `reg.fst` is the
alias name (Rust `reg.0`), `reg.snd` the physical register name (Rust
`reg.1`).  An alias outside the array yields nothing; position `0..5`
yields a `RegisterArgument` resolved from the entry snapshot, position `6`
(`"SN"`) a `Return` resolved from the exit snapshot, in both cases falling
back to `NodeIndex::end()`; `ridx` comes from `register_id_by_alias`. -/
def emitBinding (rfn : RadecoFunction) (sub_reg_f : SubRegisterFile)
    (entry_state exit_state : List Nat) (reg : String × String) : Option VarBinding :=
  match aliasArr.findIdx? (fun f => f = reg.fst) with
  | none => none
  | some pos =>
    if pos < 6 then
      some { btype := BindingType.RegisterArgument pos
             ridx := sub_reg_f.register_id_by_alias reg.fst
             idx := (entry_state.find? (commentMatches rfn reg.snd)).getD nodeIndexEnd }
    else
      some { btype := BindingType.Return
             ridx := sub_reg_f.register_id_by_alias reg.fst
             idx := (exit_state.find? (commentMatches rfn reg.snd)).getD nodeIndexEnd }

/-- The comparator passed to `tbindings.sort_by` in `init_fn_bindings`. -/
def bindCmp (x y : VarBinding) : Ordering :=
  match x.btype, y.btype with
  | BindingType.RegisterArgument i, BindingType.RegisterArgument j => compare i j
  | BindingType.RegisterArgument _, _ => Ordering.lt
  | _, BindingType.RegisterArgument _ => Ordering.gt
  | _, _ => Ordering.eq

/-- Stable insertion for `bindCmp`: `x` is placed before the first element
it does not compare greater than. -/
def insertB (x : VarBinding) : List VarBinding → List VarBinding
  | [] => [x]
  | y :: ys => if bindCmp x y = Ordering.gt then y :: insertB x ys else x :: y :: ys

/-- Rust's `sort_by` is a stable sort; for the total preorder induced by
`bindCmp` every stable sort produces the same list, embedded here as stable
insertion sort. -/
def stableSortB : List VarBinding → List VarBinding
  | [] => []
  | x :: xs => insertB x (stableSortB xs)

/-- The snapshot block at the top of `init_fn_bindings`: entry node, exit
node and a register-state node for each are demanded (`expect`, modelled as
`none` on failure); the two snapshots are their operand sequences. -/
def entryExitStates (rfn : RadecoFunction) : Option (List Nat × List Nat) := do
  let entry ← rfn.ssa.entry_node
  let exit_b ← rfn.ssa.exit_node
  let entry_state ← rfn.ssa.registers_in entry
  let exit_state ← rfn.ssa.registers_in exit_b
  pure (rfn.ssa.operands_of entry_state, rfn.ssa.operands_of exit_state)

/-- `ModuleLoader::init_fn_bindings`: take the entry/exit register
snapshots, emit one binding per alias-table entry that names
`A0..A5`/`SN`, stable-sort them by `bindCmp`, overwrite the function's
bindings. -/
def ModuleLoader.init_fn_bindings (rfn : RadecoFunction) (sub_reg_f : SubRegisterFile) :
    Option RadecoFunction :=
  match entryExitStates rfn with
  | none => none
  | some (entry_state, exit_state) =>
    let tbindings :=
      sub_reg_f.alias_info.filterMap (emitBinding rfn sub_reg_f entry_state exit_state)
    some { rfn with bindings := stableSortB tbindings }

/-! ### ModuleLoader::load -/

/-- The fatal outcomes of `ModuleLoader::load`, one constructor per
distinct panic site reachable in it (an `unwrap`/`expect` on missing data,
or `unimplemented!()`). -/
inductive LoadFatal where
  /-- `ii.name.as_ref().unwrap()` on an import that has a PLT but no name. -/
  | importNameMissing
  /-- an `unwrap` inside a function-identification strategy. -/
  | strategyUnwrapFailed
  /-- `source.register_profile().expect("Unable to load register profile")`. -/
  | registerProfileMissing
  /-- `info.offset.unwrap()` in the datarefs loop. -/
  | auxOffsetMissing
  /-- `unimplemented!()` for `load_locals`. -/
  | localsUnimplemented
  /-- an `expect` inside `init_fn_bindings`. -/
  | bindingsAssertFailed
deriving DecidableEq

deriving instance DecidableEq for Except

/-- The configuration flags of `ModuleLoader` (all default off) together
with the optional post-identification filter.  The `source` and `floader`
fields are handled at the call: `load` is modelled with its effective
source and with the default function loader (`include_defaults()` on an
empty strategy list), which is what a default-configured `ModuleLoader`
installs. -/
structure ModuleLoaderCfg where
  filterF : Option (RadecoFunction → Bool) := none
  build_callgraph : Bool := false
  build_ssa : Bool := false
  load_datarefs : Bool := false
  load_locals : Bool := false
  parallel : Bool := false
  assume_cc : Bool := false
  stub_imports : Bool := false

/-- The imports seeding of `ModuleLoader::load`: keep entries with a known
PLT address, materialize each as `new_stub(plt, name)` — the name is
unwrapped (a PLT-bearing import without a name is a panic), collect into
the map. -/
def mkImports (import_info : List LImportInfo) : Option (BTreeMap ImportInfo) :=
  import_info.foldlM
    (fun m ii =>
      match ii.plt with
      | some plt => do
        let name ← ii.name
        pure (m.insert plt (ImportInfo.new_stub plt name))
      | none => pure m)
    ([] : BTreeMap ImportInfo)

/-- The post-identification filter of `ModuleLoader::load`: retain entries
whose value passes the configured filter, if any. -/
def applyFilter (filterF : Option (RadecoFunction → Bool)) (m : BTreeMap RadecoFunction) :
    BTreeMap RadecoFunction :=
  match filterF with
  | some f => m.filter (fun kv => f kv.snd)
  | none => m

/-- The instruction-loading loop of `ModuleLoader::load`:
`disassemble_n_bytes(size, offset).unwrap_or(Vec::new())` per function. -/
def loadInstructions (src : Source) (m : BTreeMap RadecoFunction) : BTreeMap RadecoFunction :=
  m.mapValues (fun _ rfn =>
    { rfn with instructions := (src.disassemble_n_bytes rfn.size rfn.offset).getD [] })

/-- Modelled from the spec: the SSA produced by `SSAConstruct`
(`frontend::ssaconstructor`, not under `src/`).  Per the spec it is
non-default and carries entry and exit nodes with register snapshots whose
operands are comment nodes naming each physical register of the profile
(nodes `0`/`1` are entry/exit, `2`/`3` their register-state nodes, then one
comment node per register for each snapshot). -/
def mkConstructedSSA (reg_p : LRegInfo) : SSAStorage :=
  let n := reg_p.regs.length
  { entry := some 0
    exit_n := some 1
    reg_state := [(0, 2), (1, 3)]
    operands_tbl :=
      [(2, (List.range n).map (fun i => i + 4)), (3, (List.range n).map (fun i => i + 4 + n))]
    node_data_tbl :=
      (reg_p.regs.enum.map (fun ir => (ir.fst + 4, NodeType.Comment ir.snd))) ++
      (reg_p.regs.enum.map (fun ir => (ir.fst + 4 + n, NodeType.Comment ir.snd))) }

/-- Modelled from the spec: `SSAConstruct::construct(rfn, reg_p, assume_cc)`
builds the function's SSA in place; it rewrites only the `ssa` field. -/
def SSAConstruct.construct (reg_p : LRegInfo) (_assume_cc : Bool) (rfn : RadecoFunction) :
    RadecoFunction :=
  { rfn with ssa := mkConstructedSSA reg_p }

/-- The `build_ssa` loop of `ModuleLoader::load` over `rmod.functions`.
The `parallel` fan-out applies the same per-entry construction with no
cross-entry state, so serial and parallel branches are the same map. -/
def ssaConstructAll (reg_p : LRegInfo) (assume_cc : Bool) (m : BTreeMap RadecoFunction) :
    BTreeMap RadecoFunction :=
  m.mapValues (fun _ rfn => SSAConstruct.construct reg_p assume_cc rfn)

/-- The `stub_imports` loop of `ModuleLoader::load` over `rmod.imports`:
construct SSA for each import's inner function. -/
def ssaConstructImports (reg_p : LRegInfo) (assume_cc : Bool) (m : BTreeMap ImportInfo) :
    BTreeMap ImportInfo :=
  m.mapValues (fun _ ifn => { ifn with rfn := SSAConstruct.construct reg_p assume_cc ifn.rfn })

/-- Modelled from the spec: `llanalyzer::load_call_graph`
(`middle::llanalyzer`, not under `src/`): node weight = function entry
address, one node per known function or import address ("adds nodes for
discovered targets"), and one call-site-labelled edge per auxiliary callee
record whose endpoints are both known (`csite_node` is filled in later by
the call-context initializer and starts at its default). -/
def llanalyzer.load_call_graph (aux_info : List FunctionInfo) (rmod : RadecoModule) :
    CallGraph :=
  let fnAddrs := rmod.functions.map (fun kv => kv.fst)
  let addrs := fnAddrs ++ (rmod.imports.map (fun kv => kv.fst)).filter (fun a => !(fnAddrs.contains a))
  { node_weights := addrs
    edges := aux_info.foldl
      (fun es info =>
        match info.offset with
        | some o =>
          es ++ info.callrefs.filterMap (fun cr =>
            match addrs.findIdx? (fun a => a = o), addrs.findIdx? (fun a => a = cr.snd) with
            | some si, some ti => some { src := si, tgt := ti, weight := { csite := cr.fst } }
            | _, _ => none)
        | none => es)
      [] }

/-- One iteration of the call-graph fix-up loop of `ModuleLoader::load`
(`for nidx in rmod.callgraph.node_indices()`): look the node's weight up in
`functions` first, `imports` second, and write the node index into the
located entry's `cgid`. -/
def fixupEntry (st : BTreeMap RadecoFunction × BTreeMap ImportInfo) (nidx cg_addr : Nat) :
    BTreeMap RadecoFunction × BTreeMap ImportInfo :=
  if (BTreeMap.find? cg_addr st.fst).isSome then
    (BTreeMap.modify cg_addr (fun rfn => { rfn with cgid := nidx }) st.fst, st.snd)
  else if (BTreeMap.find? cg_addr st.snd).isSome then
    (st.fst, BTreeMap.modify cg_addr (fun ifn => { ifn with rfn := { ifn.rfn with cgid := nidx } }) st.snd)
  else
    st

/-- The fix-up loop over the node weights, carrying the running node
index. -/
def fixupGo (i : Nat) (ws : List Nat)
    (st : BTreeMap RadecoFunction × BTreeMap ImportInfo) :
    BTreeMap RadecoFunction × BTreeMap ImportInfo :=
  match ws with
  | [] => st
  | w :: rest => fixupGo (i + 1) rest (fixupEntry st i w)

/-- The call-graph fix-up pass of `ModuleLoader::load` (source lines
764-775): associate every call-graph node with the function or import its
weight addresses. -/
def fixupCgids (g : CallGraph) (fns : BTreeMap RadecoFunction) (imps : BTreeMap ImportInfo) :
    BTreeMap RadecoFunction × BTreeMap ImportInfo :=
  fixupGo 0 g.node_weights (fns, imps)

/-- The `build_callgraph` step: build the graph from the auxiliary info,
then run the fix-up pass. -/
def cgStep (aux_info : List FunctionInfo) (rmod : RadecoModule) : RadecoModule :=
  let g := llanalyzer.load_call_graph aux_info rmod
  let st := fixupCgids g rmod.functions rmod.imports
  { rmod with callgraph := g, functions := st.fst, imports := st.snd }

/-- The `load_datarefs` loop: for each auxiliary entry, unwrap its offset
(a panic when missing) and, when a function at that offset exists, copy the
entry's datarefs (`unwrap_or_default`). -/
def datarefsStep (aux_info : List FunctionInfo) (fns : BTreeMap RadecoFunction) :
    Except LoadFatal (BTreeMap RadecoFunction) :=
  aux_info.foldlM
    (fun fns info =>
      match info.offset with
      | none => Except.error LoadFatal.auxOffsetMissing
      | some off =>
        Except.ok (BTreeMap.modify off (fun rfn => { rfn with datarefs := info.datarefs.getD [] }) fns))
    fns

/-- The auxiliary block of `ModuleLoader::load` (guarded by
`build_callgraph || load_datarefs || load_locals`): fetch the source's
function list once (empty on error), then call graph, datarefs, and the
fatal `unimplemented!()` for `load_locals`, in source order. -/
def auxSteps (cfg : ModuleLoaderCfg) (src : Source) (rmod : RadecoModule) :
    Except LoadFatal RadecoModule :=
  if cfg.build_callgraph || cfg.load_datarefs || cfg.load_locals then
    let aux_info := src.functions.getD []
    let rmod1 := if cfg.build_callgraph then cgStep aux_info rmod else rmod
    match (if cfg.load_datarefs then datarefsStep aux_info rmod1.functions else Except.ok rmod1.functions) with
    | Except.error e => Except.error e
    | Except.ok fns =>
      let rmod2 := { rmod1 with functions := fns }
      if cfg.load_locals then Except.error LoadFatal.localsUnimplemented else Except.ok rmod2
  else
    Except.ok rmod

/-- The binding-initialization loop over `rmod.functions`; a failing
`expect` inside `init_fn_bindings` is a panic. -/
def initAllBindings (sub_reg_f : SubRegisterFile) :
    BTreeMap RadecoFunction → Except LoadFatal (BTreeMap RadecoFunction)
  | [] => Except.ok []
  | kv :: rest =>
    match ModuleLoader.init_fn_bindings kv.snd sub_reg_f with
    | some rfn2 =>
      match initAllBindings sub_reg_f rest with
      | Except.ok rest2 => Except.ok ((kv.fst, rfn2) :: rest2)
      | Except.error e => Except.error e
    | none => Except.error LoadFatal.bindingsAssertFailed

/-- The binding-initialization loop over `rmod.imports` (each import's
inner function). -/
def initAllImportBindings (sub_reg_f : SubRegisterFile) :
    BTreeMap ImportInfo → Except LoadFatal (BTreeMap ImportInfo)
  | [] => Except.ok []
  | kv :: rest =>
    match ModuleLoader.init_fn_bindings kv.snd.rfn sub_reg_f with
    | some rfn2 =>
      match initAllImportBindings sub_reg_f rest with
      | Except.ok rest2 => Except.ok ((kv.fst, { kv.snd with rfn := rfn2 }) :: rest2)
      | Except.error e => Except.error e
    | none => Except.error LoadFatal.bindingsAssertFailed

/-- Modelled from the spec: `llanalyzer::init_call_ctx`
(`middle::llanalyzer`, not under `src/`): "walks the call graph and
populates each edge's caller/callee node maps" — it rewrites only the `map`
field of each edge's weight.  The pair computation itself lives outside
`src/` and is consulted by none of the claims; the overwrite is modelled
with the empty map. -/
def llanalyzer.init_call_ctx (rmod : RadecoModule) : RadecoModule :=
  { rmod with callgraph :=
      { rmod.callgraph with edges :=
          rmod.callgraph.edges.map (fun e => { e with weight := { e.weight with map := [] } }) } }

/-- The binding block of `ModuleLoader::load` (guarded by
`build_callgraph && assume_cc`): init bindings for every function, then for
every import's inner function, then run the call-context initializer. -/
def bindingsSteps (cfg : ModuleLoaderCfg) (sub_reg_f : SubRegisterFile) (rmod : RadecoModule) :
    Except LoadFatal RadecoModule :=
  if cfg.build_callgraph && cfg.assume_cc then
    match initAllBindings sub_reg_f rmod.functions with
    | Except.error e => Except.error e
    | Except.ok fns =>
      match initAllImportBindings sub_reg_f rmod.imports with
      | Except.error e => Except.error e
      | Except.ok imps =>
        Except.ok (llanalyzer.init_call_ctx { rmod with functions := fns, imports := imps })
  else
    Except.ok rmod

/-- `ModuleLoader::load`, in source order: seed `symbols` and `imports`
from the source (metadata query failures keep the default), run the
function-identification pipeline, apply the filter, load instructions,
fetch the register profile (fatal on failure), run the `build_ssa` and
`stub_imports` SSA constructions, the auxiliary block, and the binding
block. -/
def ModuleLoader.load (cfg : ModuleLoaderCfg) (src : Source) :
    Except LoadFatal RadecoModule :=
  match mkImports (src.imports.getD []) with
  | none => Except.error LoadFatal.importNameMissing
  | some imports0 =>
    let rmod0 : RadecoModule := { symbols := src.symbols.getD [], imports := imports0 }
    match FunctionLoader.load (FunctionLoader.include_defaults []) (some src) rmod0 with
    | none => Except.error LoadFatal.strategyUnwrapFailed
    | some flresult =>
      let functions1 := loadInstructions src (applyFilter cfg.filterF flresult.functions)
      match src.register_profile with
      | none => Except.error LoadFatal.registerProfileMissing
      | some reg_p =>
        let sub_reg_f := SubRegisterFile.new reg_p
        let functions2 :=
          if cfg.build_ssa then ssaConstructAll reg_p cfg.assume_cc functions1 else functions1
        let imports1 :=
          if cfg.stub_imports then ssaConstructImports reg_p cfg.assume_cc imports0 else imports0
        let rmod1 : RadecoModule := { rmod0 with functions := functions2, imports := imports1 }
        match auxSteps cfg src rmod1 with
        | Except.error e => Except.error e
        | Except.ok rmod2 => bindingsSteps cfg sub_reg_f rmod2

/-! ### Derived notions used by the theorem statements -/

/-- The argument position of a `RegisterArgument` binding type, `none` for
every other kind; the comparator of `init_fn_bindings` is determined by
it. -/
def raPos? : BindingType → Option Nat
  | BindingType.RegisterArgument i => some i
  | _ => none

/-- `true` exactly on `RegisterArgument` bindings. -/
def isRA (b : VarBinding) : Bool := (raPos? b.btype).isSome

/-- `m` satisfies `P` entrywise: every `(key, value)` pair of the map
satisfies `P key value`. -/
def EntryInv (P : Nat → α → Prop) (m : BTreeMap α) : Prop :=
  ∀ kv ∈ m, P kv.fst kv.snd

/-- The function record `strat_use_symbols` builds for a well-formed `Func`
symbol: `name`, `offset = vaddr`, `size`, everything else default. -/
def symRecord (s : LSymbolInfo) : RadecoFunction :=
  { name := s.name.getD "", offset := s.vaddr.getD 0, size := s.size.getD 0 }

/-! ### Concrete fixtures for witnesses and counterexamples -/

/-- A two-node call graph with a single edge `0 → 1` whose call site is
`0x1004`, as in spec scenario (f). -/
def cgC1 : CallGraph :=
  { node_weights := [4096, 8192]
    edges := [{ src := 0, tgt := 1, weight := { csite := 4100 } }] }

/-- A well-formed `Func` symbol: `{name: "main", vaddr: 0x1000, size: 16}`. -/
def symMain : LSymbolInfo :=
  { stype := some LSymbolType.Func, name := some "main", vaddr := some 4096, size := some 16 }

/-- The function record the pipeline builds from `symMain`. -/
def fnMain : RadecoFunction := { name := "main", offset := 4096, size := 16 }

/-- A small register profile: one physical register and one alias. -/
def regW : LRegInfo :=
  { regs := ["rax"], alias_info := [("A0", "rax")], reg_ids := [("A0", 0)] }

/-- Configuration for the C2 counterexample and witness: `stub_imports`
on, `build_ssa` off. -/
def cfgC2 : ModuleLoaderCfg := { stub_imports := true }

/-- Source for the C2 counterexample: one import `puts` at PLT `0x400`,
no symbols, register profile available. -/
def srcC2 : Source :=
  { symbols := some []
    imports := some [{ plt := some 1024, name := some "puts" }]
    functions := some []
    register_profile := some regW }

/-- The module `ModuleLoader::load` produces for `cfgC2`/`srcC2`. -/
def rmodC2 : RadecoModule := (ModuleLoader.load cfgC2 srcC2).toOption.getD {}

/-- A module whose only symbol is a `Func` symbol lacking a name (vaddr
and size present). -/
def rmodC3bad : RadecoModule :=
  { symbols := [{ stype := some LSymbolType.Func, vaddr := some 4096, size := some 16 }] }

/-- A module with a single well-formed `Func` symbol. -/
def rmodC3good : RadecoModule := { symbols := [symMain] }

/-- Two single-strategy maps used to exercise the pipeline merge: `bW4`
collides with `aW4` on key `1`. -/
def aW4 : BTreeMap RadecoFunction := [(1, { name := "a" }), (3, { name := "c" })]

/-- Later map for the pipeline-merge witness. -/
def bW4 : BTreeMap RadecoFunction := [(1, { name := "b" }), (2, { name := "d" })]

/-- Call graph for the C5 witness: weights `0x1000` (a function, also an
import) and `0x2000` (an import only). -/
def gW5 : CallGraph := { node_weights := [4096, 8192] }

/-- Functions map for the C5 witness. -/
def fnsW5 : BTreeMap RadecoFunction := [(4096, fnMain)]

/-- Imports map for the C5 witness: `0x1000` is also an import key, so the
fix-up must prefer the functions map for it. -/
def impsW5 : BTreeMap ImportInfo :=
  [(4096, { plt := 4096, name := "dup" }), (8192, { plt := 8192, name := "puts" })]

/-- Default (all-off) loader configuration. -/
def cfgW6 : ModuleLoaderCfg := {}

/-- Source for the C6/C9 witnesses: one good symbol, one good import, a
register profile, and an empty auxiliary function list. -/
def srcW6 : Source :=
  { symbols := some [symMain]
    imports := some [{ plt := some 1024, name := some "puts" }]
    functions := some []
    register_profile := some regW }

/-- The module `ModuleLoader::load` produces for `cfgW6`/`srcW6`. -/
def rmodW6 : RadecoModule := (ModuleLoader.load cfgW6 srcW6).toOption.getD {}

/-- An SSA with entry node `0`, exit node `1`, register-state nodes `2`/`3`,
entry snapshot operands `[10, 11]` commenting `rsi`/`rdi` and exit snapshot
operand `[12]` commenting `rax`, as in spec scenario (e). -/
def ssaW7 : SSAStorage :=
  { entry := some 0
    exit_n := some 1
    reg_state := [(0, 2), (1, 3)]
    operands_tbl := [(2, [10, 11]), (3, [12])]
    node_data_tbl :=
      [(10, NodeType.Comment "rsi"), (11, NodeType.Comment "rdi"), (12, NodeType.Comment "rax")] }

/-- A function carrying `ssaW7`. -/
def fnW7 : RadecoFunction := { ssa := ssaW7 }

/-- Register file of spec scenario (e): `A0 → rdi`, `A1 → rsi`,
`SN → rax`. -/
def srfW7 : SubRegisterFile :=
  { alias_info := [("A0", "rdi"), ("A1", "rsi"), ("SN", "rax")]
    reg_ids := [("A0", 5), ("A1", 6), ("SN", 0)] }

/-- An accumulator as it stands after the symbols stage found one
function: one entry, counter `1`. -/
def accW8 : FLResult := { functions := [(4096, fnMain)], new := 1 }

/-- Configuration with (only) `load_locals` enabled. -/
def cfgW9 : ModuleLoaderCfg := { load_locals := true }

/-- Configuration with `build_callgraph` and `assume_cc` enabled and
`build_ssa` off, for the C10 abort. -/
def cfgC10 : ModuleLoaderCfg := { build_callgraph := true, assume_cc := true }

/-! ## Helper lemmas: the association-list map -/

namespace BTreeMap

theorem find?_insert_self (k : Nat) (v : α) (m : BTreeMap α) :
    find? k (insert k v m) = some v := by
  induction m with
  | nil => simp [insert, find?]
  | cons kv rest ih =>
    obtain ⟨k', v'⟩ := kv
    by_cases h1 : k < k'
    · simp [insert, h1, find?]
    · by_cases h2 : k = k'
      · subst h2; simp [insert, h1, find?]
      · simp [insert, h1, h2, find?, Ne.symm h2, ih]

theorem find?_insert_ne (h : j ≠ k) (v : α) (m : BTreeMap α) :
    find? j (insert k v m) = find? j m := by
  induction m with
  | nil => simp [insert, find?, Ne.symm h]
  | cons kv rest ih =>
    obtain ⟨k', v'⟩ := kv
    by_cases h1 : k < k'
    · simp [insert, h1, find?, Ne.symm h]
    · by_cases h2 : k = k'
      · subst h2
        simp [insert, h1, find?, Ne.symm h]
      · by_cases h3 : k' = j
        · subst h3
          simp [insert, h1, h2, find?]
        · simp [insert, h1, h2, find?, h3, ih]

theorem find?_foldl_insert_not_mem (l : List (Nat × α)) (m : BTreeMap α) (k : Nat)
    (h : k ∉ l.map Prod.fst) :
    find? k (l.foldl (fun m kv => insert kv.fst kv.snd m) m) = find? k m := by
  induction l generalizing m with
  | nil => rfl
  | cons kv rest ih =>
    simp only [List.map_cons, List.mem_cons, not_or] at h
    simp only [List.foldl_cons]
    rw [ih _ h.2, find?_insert_ne h.1]

theorem extend_eq_foldl (a b : BTreeMap α) :
    extend a b = b.foldl (fun m kv => insert kv.fst kv.snd m) a := rfl

theorem find?_extend (a b : BTreeMap α) (k : Nat) (hb : (b.map Prod.fst).Nodup) :
    find? k (extend a b) =
      if (find? k b).isSome then find? k b else find? k a := by
  induction b generalizing a with
  | nil => simp [extend, find?]
  | cons kv rest ih =>
    obtain ⟨k', v'⟩ := kv
    simp only [List.map_cons, List.nodup_cons] at hb
    rw [extend_eq_foldl] at *
    simp only [List.foldl_cons]
    by_cases h : k' = k
    · subst h
      rw [find?_foldl_insert_not_mem _ _ _ hb.1, find?_insert_self]
      simp [find?]
    · rw [← extend_eq_foldl, ih _ hb.2, find?_insert_ne (Ne.symm h)]
      simp [find?, h]

theorem find?_modify_self (k : Nat) (f : α → α) (m : BTreeMap α) :
    find? k (modify k f m) = (find? k m).map f := by
  induction m with
  | nil => simp [modify, find?]
  | cons kv rest ih =>
    obtain ⟨k', v'⟩ := kv
    by_cases h : k' = k
    · subst h; simp [modify, find?]
    · simp [modify, find?, h, ih]

theorem find?_modify_ne (h : j ≠ k) (f : α → α) (m : BTreeMap α) :
    find? j (modify k f m) = find? j m := by
  induction m with
  | nil => simp [modify, find?]
  | cons kv rest ih =>
    obtain ⟨k', v'⟩ := kv
    by_cases h1 : k' = k
    · subst h1; simp [modify, find?, Ne.symm h, ih]
    · by_cases h2 : k' = j
      · subst h2; simp [modify, find?, h1]
      · simp [modify, find?, h1, h2, ih]

theorem find?_eq_some_mem (m : BTreeMap α) (k : Nat) (v : α)
    (hfind : find? k m = some v) : (k, v) ∈ m := by
  induction m with
  | nil => simp [find?] at hfind
  | cons kv rest ih =>
    obtain ⟨k', v'⟩ := kv
    by_cases h : k' = k
    · subst h
      simp [find?] at hfind
      rw [← hfind]; simp
    · simp only [find?, if_neg h] at hfind
      exact List.mem_cons_of_mem _ (ih hfind)

theorem find?_of_mem_wf (m : BTreeMap α) (k : Nat) (v : α)
    (hwf : WF m) (hmem : (k, v) ∈ m) : find? k m = some v := by
  induction m with
  | nil => simp at hmem
  | cons kv rest ih =>
    obtain ⟨k', v'⟩ := kv
    rw [WF, List.pairwise_cons] at hwf
    rcases List.mem_cons.mp hmem with h | h
    · obtain ⟨h1, h2⟩ := Prod.mk.injEq .. ▸ h
      subst h1; subst h2
      simp [find?]
    · have hk : k' < k := hwf.1 (k, v) h
      have : k' ≠ k := by omega
      simp only [find?, if_neg this]
      exact ih hwf.2 h

theorem insert_of_find?_eq (m : BTreeMap α) (k : Nat) (v : α)
    (hwf : WF m) (hfind : find? k m = some v) :
    insert k v m = m := by
  induction m with
  | nil => simp [find?] at hfind
  | cons kv rest ih =>
    obtain ⟨k', v'⟩ := kv
    rw [WF, List.pairwise_cons] at hwf
    by_cases h : k' = k
    · subst h
      simp [find?] at hfind
      subst hfind
      simp [insert]
    · simp only [find?, if_neg h] at hfind
      have hmem := find?_eq_some_mem _ _ _ hfind
      have hk : k' < k := hwf.1 (k, v) hmem
      have h1 : ¬ k < k' := by omega
      have h2 : k ≠ k' := by omega
      simp [insert, h1, h2, ih hwf.2 hfind]

theorem foldl_insert_of_find? (l : List (Nat × α)) (m : BTreeMap α)
    (hwf : WF m) (h : ∀ kv ∈ l, find? kv.fst m = some kv.snd) :
    l.foldl (fun m kv => insert kv.fst kv.snd m) m = m := by
  induction l with
  | nil => rfl
  | cons kv rest ih =>
    simp only [List.foldl_cons]
    rw [insert_of_find?_eq m kv.fst kv.snd hwf (h kv (List.mem_cons_self _ _))]
    exact ih (fun kv2 h2 => h kv2 (List.mem_cons_of_mem _ h2))

theorem extend_self (m : BTreeMap α) (hwf : WF m) : extend m m = m := by
  rw [extend_eq_foldl]
  exact foldl_insert_of_find? m m hwf
    (fun kv h => find?_of_mem_wf m kv.fst kv.snd hwf (by simpa using h))

theorem mem_insert (kv : Nat × α) (k : Nat) (v : α) (m : BTreeMap α)
    (h : kv ∈ insert k v m) : kv = (k, v) ∨ kv ∈ m := by
  induction m with
  | nil => simp [insert] at h; exact Or.inl h
  | cons kv' rest ih =>
    obtain ⟨k', v'⟩ := kv'
    by_cases h1 : k < k'
    · simp only [insert, if_pos h1] at h
      rcases List.mem_cons.mp h with h2 | h2
      · exact Or.inl h2
      · exact Or.inr h2
    · by_cases h2 : k = k'
      · simp only [insert, if_neg h1, if_pos h2] at h
        rcases List.mem_cons.mp h with h3 | h3
        · exact Or.inl h3
        · exact Or.inr (List.mem_cons_of_mem _ h3)
      · simp only [insert, if_neg h1, if_neg h2] at h
        rcases List.mem_cons.mp h with h3 | h3
        · exact Or.inr (h3 ▸ List.mem_cons_self _ _)
        · rcases ih h3 with h4 | h4
          · exact Or.inl h4
          · exact Or.inr (List.mem_cons_of_mem _ h4)

end BTreeMap

/-! ## Helper lemmas: entrywise invariants through each loader step -/

theorem entryInv_insert {P : Nat → α → Prop} {m : BTreeMap α} {k : Nat} {v : α}
    (h : P k v) (hm : EntryInv P m) : EntryInv P (BTreeMap.insert k v m) := by
  intro kv hkv
  rcases BTreeMap.mem_insert kv k v m hkv with h1 | h1
  · subst h1; exact h
  · exact hm kv h1

theorem entryInv_extend {P : Nat → α → Prop} {a b : BTreeMap α}
    (ha : EntryInv P a) (hb : EntryInv P b) : EntryInv P (BTreeMap.extend a b) := by
  rw [BTreeMap.extend_eq_foldl]
  induction b generalizing a with
  | nil => exact ha
  | cons kv rest ih =>
    simp only [List.foldl_cons]
    exact ih (entryInv_insert (hb kv (List.mem_cons_self _ _)) ha)
      (fun kv2 h2 => hb kv2 (List.mem_cons_of_mem _ h2))

theorem entryInv_filter {P : Nat → α → Prop} {m : BTreeMap α} (q : Nat × α → Bool)
    (hm : EntryInv P m) : EntryInv P (m.filter q) :=
  fun kv hkv => hm kv (List.mem_of_mem_filter hkv)

theorem entryInv_mapValues {P : Nat → α → Prop} {m : BTreeMap α} {f : Nat → α → α}
    (hm : EntryInv P m) (hf : ∀ k v, P k v → P k (f k v)) :
    EntryInv P (BTreeMap.mapValues f m) := by
  intro kv hkv
  rw [BTreeMap.mapValues] at hkv
  obtain ⟨kv0, hkv0, heq⟩ := List.mem_map.mp hkv
  rw [← heq]
  exact hf kv0.fst kv0.snd (hm kv0 hkv0)

theorem entryInv_modify {P : Nat → α → Prop} {m : BTreeMap α} {k : Nat} {f : α → α}
    (hm : EntryInv P m) (hf : ∀ v, P k v → P k (f v)) :
    EntryInv P (BTreeMap.modify k f m) := by
  induction m with
  | nil => intro kv hkv; simp [BTreeMap.modify] at hkv
  | cons kv' rest ih =>
    obtain ⟨k', v'⟩ := kv'
    by_cases h1 : k' = k
    · subst h1
      simp only [BTreeMap.modify, if_pos rfl]
      intro kv hkv
      rcases List.mem_cons.mp hkv with h2 | h2
      · subst h2; exact hf v' (hm (k', v') (List.mem_cons_self _ _))
      · exact hm kv (List.mem_cons_of_mem _ h2)
    · simp only [BTreeMap.modify, if_neg h1]
      intro kv hkv
      rcases List.mem_cons.mp hkv with h2 | h2
      · subst h2; exact hm (k', v') (List.mem_cons_self _ _)
      · exact ih (fun kv2 h3 => hm kv2 (List.mem_cons_of_mem _ h3)) kv h2

theorem initAllBindings_inv {P : Nat → RadecoFunction → Prop} {srf : SubRegisterFile}
    {fns fns' : BTreeMap RadecoFunction}
    (h : initAllBindings srf fns = Except.ok fns') (hm : EntryInv P fns)
    (hf : ∀ k v v', P k v → ModuleLoader.init_fn_bindings v srf = some v' → P k v') :
    EntryInv P fns' := by
  induction fns generalizing fns' with
  | nil =>
    simp only [initAllBindings, Except.ok.injEq] at h
    subst h; intro kv hkv; simp at hkv
  | cons kv rest ih =>
    simp only [initAllBindings] at h
    cases hinit : ModuleLoader.init_fn_bindings kv.snd srf with
    | none => rw [hinit] at h; cases h
    | some rfn2 =>
      rw [hinit] at h
      cases hrest : initAllBindings srf rest with
      | error e => rw [hrest] at h; cases h
      | ok rest2 =>
        rw [hrest] at h
        simp only [Except.ok.injEq] at h
        subst h
        intro kv2 hkv2
        rcases List.mem_cons.mp hkv2 with h2 | h2
        · subst h2
          exact hf kv.fst kv.snd rfn2 (hm kv (List.mem_cons_self _ _)) hinit
        · exact ih hrest (fun kv3 h3 => hm kv3 (List.mem_cons_of_mem _ h3)) kv2 h2

theorem initAllImportBindings_inv {P : Nat → ImportInfo → Prop} {srf : SubRegisterFile}
    {imps imps' : BTreeMap ImportInfo}
    (h : initAllImportBindings srf imps = Except.ok imps') (hm : EntryInv P imps)
    (hf : ∀ k v rfn2, P k v → ModuleLoader.init_fn_bindings v.rfn srf = some rfn2 →
      P k { v with rfn := rfn2 }) :
    EntryInv P imps' := by
  induction imps generalizing imps' with
  | nil =>
    simp only [initAllImportBindings, Except.ok.injEq] at h
    subst h; intro kv hkv; simp at hkv
  | cons kv rest ih =>
    simp only [initAllImportBindings] at h
    cases hinit : ModuleLoader.init_fn_bindings kv.snd.rfn srf with
    | none => rw [hinit] at h; cases h
    | some rfn2 =>
      rw [hinit] at h
      cases hrest : initAllImportBindings srf rest with
      | error e => rw [hrest] at h; cases h
      | ok rest2 =>
        rw [hrest] at h
        simp only [Except.ok.injEq] at h
        subst h
        intro kv2 hkv2
        rcases List.mem_cons.mp hkv2 with h2 | h2
        · subst h2
          exact hf kv.fst kv.snd rfn2 (hm kv (List.mem_cons_self _ _)) hinit
        · exact ih hrest (fun kv3 h3 => hm kv3 (List.mem_cons_of_mem _ h3)) kv2 h2

theorem datarefsStep_inv {P : Nat → RadecoFunction → Prop}
    {aux_info : List FunctionInfo} {fns fns' : BTreeMap RadecoFunction}
    (h : datarefsStep aux_info fns = Except.ok fns') (hm : EntryInv P fns)
    (hpres : ∀ k v d, P k v → P k { v with datarefs := d }) :
    EntryInv P fns' := by
  induction aux_info generalizing fns with
  | nil =>
    simp only [datarefsStep, List.foldlM] at h
    cases h; exact hm
  | cons info rest ih =>
    simp only [datarefsStep, List.foldlM] at h
    cases hoff : info.offset with
    | none => rw [hoff] at h; cases h
    | some off =>
      rw [hoff] at h
      simp only [bind, Except.bind] at h
      exact ih h (entryInv_modify hm (fun v hv => hpres _ _ _ hv))

/-! ## Helper lemmas: which fatal outcome each step can produce -/

theorem datarefsStep_error {aux_info : List FunctionInfo} {fns : BTreeMap RadecoFunction}
    {e : LoadFatal} (h : datarefsStep aux_info fns = Except.error e) :
    e = LoadFatal.auxOffsetMissing := by
  induction aux_info generalizing fns with
  | nil => simp only [datarefsStep, List.foldlM] at h; cases h
  | cons info rest ih =>
    simp only [datarefsStep, List.foldlM] at h
    cases hoff : info.offset with
    | none =>
      rw [hoff] at h
      simp only [bind, Except.bind] at h
      cases h; rfl
    | some off =>
      rw [hoff] at h
      simp only [bind, Except.bind] at h
      exact ih h

theorem datarefsStep_ok {aux_info : List FunctionInfo} (fns : BTreeMap RadecoFunction)
    (h : ∀ info ∈ aux_info, info.offset.isSome) :
    ∃ fns', datarefsStep aux_info fns = Except.ok fns' := by
  induction aux_info generalizing fns with
  | nil => exact ⟨fns, rfl⟩
  | cons info rest ih =>
    cases hoff : info.offset with
    | none =>
      have := h info (List.mem_cons_self _ _)
      rw [hoff] at this; cases this
    | some off =>
      obtain ⟨fns', hfns'⟩ :=
        ih (BTreeMap.modify off (fun rfn => { rfn with datarefs := info.datarefs.getD [] }) fns)
          (fun i hi => h i (List.mem_cons_of_mem _ hi))
      refine ⟨fns', ?_⟩
      simp only [datarefsStep, List.foldlM, hoff, bind, Except.bind]
      exact hfns'

theorem initAllBindings_error {srf : SubRegisterFile} {fns : BTreeMap RadecoFunction}
    {e : LoadFatal} (h : initAllBindings srf fns = Except.error e) :
    e = LoadFatal.bindingsAssertFailed := by
  induction fns with
  | nil => simp [initAllBindings] at h
  | cons kv rest ih =>
    simp only [initAllBindings] at h
    cases hinit : ModuleLoader.init_fn_bindings kv.snd srf with
    | none => rw [hinit] at h; cases h; rfl
    | some rfn2 =>
      rw [hinit] at h
      cases hrest : initAllBindings srf rest with
      | error e2 => rw [hrest] at h; cases h; exact ih hrest
      | ok rest2 => rw [hrest] at h; cases h

theorem initAllImportBindings_error {srf : SubRegisterFile} {imps : BTreeMap ImportInfo}
    {e : LoadFatal} (h : initAllImportBindings srf imps = Except.error e) :
    e = LoadFatal.bindingsAssertFailed := by
  induction imps with
  | nil => simp [initAllImportBindings] at h
  | cons kv rest ih =>
    simp only [initAllImportBindings] at h
    cases hinit : ModuleLoader.init_fn_bindings kv.snd.rfn srf with
    | none => rw [hinit] at h; cases h; rfl
    | some rfn2 =>
      rw [hinit] at h
      cases hrest : initAllImportBindings srf rest with
      | error e2 => rw [hrest] at h; cases h; exact ih hrest
      | ok rest2 => rw [hrest] at h; cases h

theorem auxSteps_error {cfg : ModuleLoaderCfg} {src : Source} {rmod : RadecoModule}
    {e : LoadFatal} (h : auxSteps cfg src rmod = Except.error e) :
    e = LoadFatal.auxOffsetMissing ∨
      (cfg.load_locals = true ∧ e = LoadFatal.localsUnimplemented) := by
  simp only [auxSteps] at h
  by_cases hguard : cfg.build_callgraph || cfg.load_datarefs || cfg.load_locals
  · rw [if_pos hguard] at h
    split at h
    · rename_i e2 hd
      cases h
      split at hd
      · exact Or.inl (datarefsStep_error hd)
      · cases hd
    · rename_i fns hd
      split at h
      · rename_i hl
        cases h
        exact Or.inr ⟨by simpa using hl, rfl⟩
      · cases h
  · rw [if_neg hguard] at h; cases h

theorem auxSteps_locals_fail {cfg : ModuleLoaderCfg} {src : Source} {rmod : RadecoModule}
    (hl : cfg.load_locals = true) :
    ∀ rmod2, auxSteps cfg src rmod ≠ Except.ok rmod2 := by
  intro rmod2 h
  simp only [auxSteps] at h
  rw [if_pos (by simp [hl])] at h
  split at h
  · cases h
  · rw [if_pos hl] at h; cases h

theorem bindingsSteps_error {cfg : ModuleLoaderCfg} {srf : SubRegisterFile}
    {rmod : RadecoModule} {e : LoadFatal}
    (h : bindingsSteps cfg srf rmod = Except.error e) :
    e = LoadFatal.bindingsAssertFailed := by
  rw [bindingsSteps] at h
  by_cases hguard : cfg.build_callgraph && cfg.assume_cc
  · rw [if_pos hguard] at h
    cases hfns : initAllBindings srf rmod.functions with
    | error e2 => rw [hfns] at h; cases h; exact initAllBindings_error hfns
    | ok fns =>
      rw [hfns] at h
      cases himps : initAllImportBindings srf rmod.imports with
      | error e2 => rw [himps] at h; cases h; exact initAllImportBindings_error himps
      | ok imps => rw [himps] at h; cases h
  · rw [if_neg hguard] at h; cases h

/-! ## Helper lemmas: the call-graph fix-up pass -/

theorem fixupEntry_find_ne {s : BTreeMap RadecoFunction × BTreeMap ImportInfo}
    {i w q : Nat} (h : q ≠ w) :
    BTreeMap.find? q (fixupEntry s i w).fst = BTreeMap.find? q s.fst ∧
    BTreeMap.find? q (fixupEntry s i w).snd = BTreeMap.find? q s.snd := by
  rw [fixupEntry]
  by_cases h1 : (BTreeMap.find? w s.fst).isSome
  · rw [if_pos h1]
    exact ⟨BTreeMap.find?_modify_ne h _ _, rfl⟩
  · rw [if_neg h1]
    by_cases h2 : (BTreeMap.find? w s.snd).isSome
    · rw [if_pos h2]
      exact ⟨rfl, BTreeMap.find?_modify_ne h _ _⟩
    · rw [if_neg h2]
      exact ⟨rfl, rfl⟩

theorem fixupGo_find_not_mem {l : List Nat} {w i : Nat}
    {s : BTreeMap RadecoFunction × BTreeMap ImportInfo} (h : w ∉ l) :
    BTreeMap.find? w (fixupGo i l s).fst = BTreeMap.find? w s.fst ∧
    BTreeMap.find? w (fixupGo i l s).snd = BTreeMap.find? w s.snd := by
  induction l generalizing i s with
  | nil => exact ⟨rfl, rfl⟩
  | cons w' rest ih =>
    simp only [List.mem_cons, not_or] at h
    rw [fixupGo]
    obtain ⟨ih1, ih2⟩ := ih (i := i + 1) (s := fixupEntry s i w') h.2
    obtain ⟨e1, e2⟩ := fixupEntry_find_ne (s := s) (i := i) (w := w') (q := w) h.1
    exact ⟨ih1.trans e1, ih2.trans e2⟩

theorem fixupGo_spec {l : List Nat} {n w i : Nat}
    {s : BTreeMap RadecoFunction × BTreeMap ImportInfo}
    (hnd : l.Nodup) (hget : l.get? n = some w) :
    (∀ rfn, BTreeMap.find? w s.fst = some rfn →
      BTreeMap.find? w (fixupGo i l s).fst = some { rfn with cgid := i + n } ∧
      BTreeMap.find? w (fixupGo i l s).snd = BTreeMap.find? w s.snd) ∧
    (BTreeMap.find? w s.fst = none →
      ∀ ifn, BTreeMap.find? w s.snd = some ifn →
        BTreeMap.find? w (fixupGo i l s).snd =
          some { ifn with rfn := { ifn.rfn with cgid := i + n } } ∧
        BTreeMap.find? w (fixupGo i l s).fst = none) := by
  induction l generalizing n i s with
  | nil => simp [List.get?] at hget
  | cons w' rest ih =>
    rw [List.nodup_cons] at hnd
    cases n with
    | zero =>
      simp only [List.get?] at hget
      cases hget
      rw [fixupGo]
      constructor
      · intro rfn hrfn
        have hsome : (BTreeMap.find? w s.fst).isSome := by rw [hrfn]; rfl
        have hfe : fixupEntry s i w =
            (BTreeMap.modify w (fun rfn => { rfn with cgid := i }) s.fst, s.snd) := by
          rw [fixupEntry, if_pos hsome]
        obtain ⟨p1, p2⟩ := fixupGo_find_not_mem (i := i + 1) (s := fixupEntry s i w) hnd.1
        rw [hfe] at p1 p2
        rw [hfe]
        refine ⟨?_, ?_⟩
        · rw [p1]
          simp [BTreeMap.find?_modify_self, hrfn]
        · rw [p2]
      · intro hnone ifn hifn
        have hnsome : ¬ (BTreeMap.find? w s.fst).isSome := by rw [hnone]; simp
        have hsome2 : (BTreeMap.find? w s.snd).isSome := by rw [hifn]; rfl
        have hfe : fixupEntry s i w =
            (s.fst,
             BTreeMap.modify w (fun ifn => { ifn with rfn := { ifn.rfn with cgid := i } }) s.snd) := by
          rw [fixupEntry, if_neg hnsome, if_pos hsome2]
        obtain ⟨p1, p2⟩ := fixupGo_find_not_mem (i := i + 1) (s := fixupEntry s i w) hnd.1
        rw [hfe] at p1 p2
        rw [hfe]
        refine ⟨?_, ?_⟩
        · rw [p2]
          simp [BTreeMap.find?_modify_self, hifn]
        · rw [p1, hnone]
    | succ n2 =>
      simp only [List.get?] at hget
      have hwmem : w ∈ rest := List.get?_mem hget
      have hww' : w ≠ w' := fun heq => hnd.1 (heq ▸ hwmem)
      rw [fixupGo]
      obtain ⟨e1, e2⟩ := fixupEntry_find_ne (s := s) (i := i) (w := w') (q := w) hww'
      obtain ⟨ih1, ih2⟩ := ih (n := n2) (i := i + 1) (s := fixupEntry s i w') hnd.2 hget
      have harith : i + 1 + n2 = i + (n2 + 1) := by omega
      constructor
      · intro rfn hrfn
        obtain ⟨q1, q2⟩ := ih1 rfn (e1.trans hrfn)
        rw [harith] at q1
        exact ⟨q1, q2.trans e2⟩
      · intro hnone ifn hifn
        obtain ⟨q1, q2⟩ := ih2 (e1.trans hnone) ifn (e2.trans hifn)
        rw [harith] at q1
        exact ⟨q1, q2⟩

/-! ## Helper lemmas: the stable sort of `init_fn_bindings` -/

theorem bindCmp_eq_raPos (x y : VarBinding) :
    bindCmp x y =
      match raPos? x.btype, raPos? y.btype with
      | some i, some j => compare i j
      | some _, none => Ordering.lt
      | none, some _ => Ordering.gt
      | none, none => Ordering.eq := by
  obtain ⟨bx, _, _, _⟩ := x
  obtain ⟨bty, _, _, _⟩ := y
  cases bx <;> cases bty <;> rfl

theorem bindCmp_gt_asymm {x y : VarBinding} (h : bindCmp x y = Ordering.gt) :
    bindCmp y x ≠ Ordering.gt := by
  rw [bindCmp_eq_raPos] at *
  cases hx : raPos? x.btype <;> cases hy : raPos? y.btype <;> rw [hx, hy] at h <;> simp_all
  rename_i i j
  rw [Nat.compare_eq_gt] at h
  rw [Nat.compare_eq_gt]
  omega

theorem bindLe_trans {x y z : VarBinding}
    (h1 : bindCmp x y ≠ Ordering.gt) (h2 : bindCmp y z ≠ Ordering.gt) :
    bindCmp x z ≠ Ordering.gt := by
  rw [bindCmp_eq_raPos] at *
  cases hx : raPos? x.btype <;> cases hy : raPos? y.btype <;> cases hz : raPos? z.btype <;>
    rw [hx, hy] at h1 <;> rw [hy, hz] at h2 <;> simp_all
  rename_i i j k
  rw [Nat.compare_eq_gt] at *
  omega

theorem insertB_perm (x : VarBinding) (l : List VarBinding) :
    (insertB x l).Perm (x :: l) := by
  induction l with
  | nil => exact List.Perm.refl _
  | cons y ys ih =>
    rw [insertB]
    by_cases h : bindCmp x y = Ordering.gt
    · rw [if_pos h]
      exact (List.Perm.cons y ih).trans (List.Perm.swap x y ys)
    · rw [if_neg h]

theorem stableSortB_perm (l : List VarBinding) : (stableSortB l).Perm l := by
  induction l with
  | nil => exact List.Perm.refl _
  | cons x xs ih =>
    rw [stableSortB]
    exact (insertB_perm x (stableSortB xs)).trans (List.Perm.cons x ih)

theorem pairwise_insertB (x : VarBinding) (l : List VarBinding)
    (h : List.Pairwise (fun a b => bindCmp a b ≠ Ordering.gt) l) :
    List.Pairwise (fun a b => bindCmp a b ≠ Ordering.gt) (insertB x l) := by
  induction l with
  | nil => simp [insertB]
  | cons y ys ih =>
    rw [List.pairwise_cons] at h
    rw [insertB]
    by_cases hc : bindCmp x y = Ordering.gt
    · rw [if_pos hc]
      rw [List.pairwise_cons]
      refine ⟨?_, ih h.2⟩
      intro b hb
      have hb2 := (insertB_perm x ys).mem_iff.mp hb
      rcases List.mem_cons.mp hb2 with h3 | h3
      · subst h3; exact bindCmp_gt_asymm hc
      · exact h.1 b h3
    · rw [if_neg hc]
      rw [List.pairwise_cons]
      refine ⟨?_, List.pairwise_cons.mpr h⟩
      intro b hb
      rcases List.mem_cons.mp hb with h3 | h3
      · subst h3; exact hc
      · exact bindLe_trans hc (h.1 b h3)

theorem pairwise_stableSortB (l : List VarBinding) :
    List.Pairwise (fun a b => bindCmp a b ≠ Ordering.gt) (stableSortB l) := by
  induction l with
  | nil => simp [stableSortB]
  | cons x xs ih => exact pairwise_insertB x (stableSortB xs) ih

theorem raPos?_isSome_of_gt {x y : VarBinding} (hx : isRA x = false)
    (h : bindCmp x y = Ordering.gt) : isRA y = true := by
  rw [isRA] at *
  rw [bindCmp_eq_raPos] at h
  cases hxp : raPos? x.btype <;> cases hyp : raPos? y.btype <;> rw [hxp, hyp] at h <;> simp_all

theorem filter_nonRA_insertB (x : VarBinding) (l : List VarBinding) :
    (insertB x l).filter (fun b => !(isRA b)) =
      if isRA x then l.filter (fun b => !(isRA b))
      else x :: l.filter (fun b => !(isRA b)) := by
  induction l with
  | nil =>
    cases hx : isRA x <;> simp [insertB, hx]
  | cons y ys ih =>
    rw [insertB]
    by_cases hc : bindCmp x y = Ordering.gt
    · rw [if_pos hc]
      cases hx : isRA x with
      | false =>
        have hy := raPos?_isSome_of_gt hx hc
        simp [List.filter_cons, hy, ih, hx]
      | true =>
        cases hy : isRA y <;> simp [List.filter_cons, hy, ih, hx]
    · rw [if_neg hc]
      cases hx : isRA x <;> cases hy : isRA y <;> simp [List.filter_cons, hx, hy]

theorem filter_nonRA_stableSortB (l : List VarBinding) :
    (stableSortB l).filter (fun b => !(isRA b)) = l.filter (fun b => !(isRA b)) := by
  induction l with
  | nil => rfl
  | cons x xs ih =>
    rw [stableSortB, filter_nonRA_insertB]
    cases hx : isRA x <;> simp [List.filter_cons, hx, ih]

/-! ## Helper lemmas: the identification pipeline folds -/

theorem symStep_ok (acc : FLResult) {s : LSymbolInfo}
    (hn : s.name.isSome) (hv : s.vaddr.isSome) (hs : s.size.isSome) :
    symStep acc s =
      some { acc with
              functions := acc.functions.insert (s.vaddr.getD 0) (symRecord s)
              new := acc.new + 1 } := by
  obtain ⟨n, hn⟩ := Option.isSome_iff_exists.mp hn
  obtain ⟨v, hv⟩ := Option.isSome_iff_exists.mp hv
  obtain ⟨z, hz⟩ := Option.isSome_iff_exists.mp hs
  simp [symStep, symRecord, hn, hv, hz]

theorem symFold_ok (syms : List LSymbolInfo) (acc : FLResult)
    (h : ∀ s ∈ syms, s.name.isSome ∧ s.vaddr.isSome ∧ s.size.isSome) :
    ∃ res, syms.foldlM symStep acc = some res ∧
      res.new = acc.new + syms.length ∧
      res.functions =
        syms.foldl (fun m s => BTreeMap.insert (s.vaddr.getD 0) (symRecord s) m)
          acc.functions := by
  induction syms generalizing acc with
  | nil => exact ⟨acc, rfl, by simp, rfl⟩
  | cons s rest ih =>
    obtain ⟨hn, hv, hs⟩ := h s (List.mem_cons_self _ _)
    obtain ⟨res, hres, hnew, hfns⟩ :=
      ih { acc with
            functions := acc.functions.insert (s.vaddr.getD 0) (symRecord s)
            new := acc.new + 1 }
        (fun s2 h2 => h s2 (List.mem_cons_of_mem _ h2))
    refine ⟨res, ?_, ?_, ?_⟩
    · simp only [List.foldlM, symStep_ok acc hn hv hs, Option.bind, bind]
      exact hres
    · rw [hnew]; simp; omega
    · rw [hfns]; simp

theorem find?_symInserts {syms : List LSymbolInfo} {s : LSymbolInfo}
    (m : BTreeMap RadecoFunction) (hmem : s ∈ syms)
    (hnd : (syms.map (fun s => s.vaddr.getD 0)).Nodup) :
    BTreeMap.find? (s.vaddr.getD 0)
        (syms.foldl (fun m s => BTreeMap.insert (s.vaddr.getD 0) (symRecord s) m) m) =
      some (symRecord s) := by
  induction syms generalizing m with
  | nil => simp at hmem
  | cons s' rest ih =>
    simp only [List.map_cons, List.nodup_cons] at hnd
    simp only [List.foldl_cons]
    rcases List.mem_cons.mp hmem with h1 | h1
    · subst h1
      have hfold :
          rest.foldl (fun m s => BTreeMap.insert (s.vaddr.getD 0) (symRecord s) m)
              (BTreeMap.insert (s.vaddr.getD 0) (symRecord s) m) =
            (rest.map (fun s => (s.vaddr.getD 0, symRecord s))).foldl
              (fun m kv => BTreeMap.insert kv.fst kv.snd m)
              (BTreeMap.insert (s.vaddr.getD 0) (symRecord s) m) := by
        rw [List.foldl_map]
      rw [hfold, BTreeMap.find?_foldl_insert_not_mem _ _ _
        (by simpa [List.map_map, Function.comp] using hnd.1), BTreeMap.find?_insert_self]
    · exact ih _ h1 hnd.2

theorem runStage_two (s1 s2 : PredicatedLoader) (sm : Option Source) (rm : RadecoModule) :
    FunctionLoader.load [s1, s2] sm rm =
      (FunctionLoader.load [s1] sm rm).bind
        (fun acc => FunctionLoader.runStage sm rm acc s2) := by
  simp only [FunctionLoader.load, FunctionLoader.loadFrom, List.foldlM]
  cases h : FunctionLoader.runStage sm rm ({} : FLResult) s1 with
  | none => simp [Option.bind, bind, h]
  | some acc =>
    simp only [Option.bind, bind, h]
    cases FunctionLoader.runStage sm rm acc s2 <;> rfl

/-! ## Helper lemmas: shape of `init_fn_bindings` results and module-level
invariant flow -/

theorem init_fn_bindings_shape {rfn rfn' : RadecoFunction} {srf : SubRegisterFile}
    (h : ModuleLoader.init_fn_bindings rfn srf = some rfn') :
    ∃ b, rfn' = { rfn with bindings := b } := by
  rw [ModuleLoader.init_fn_bindings] at h
  cases hs : entryExitStates rfn with
  | none => rw [hs] at h; cases h
  | some states =>
    obtain ⟨es, xs⟩ := states
    rw [hs] at h
    simp only [Option.some.injEq] at h
    exact ⟨_, h.symm⟩

theorem entryInv_mapValues_of {P : Nat → α → Prop} {f : Nat → α → α} (m : BTreeMap α)
    (hf : ∀ k v, P k (f k v)) : EntryInv P (BTreeMap.mapValues f m) := by
  intro kv hkv
  rw [BTreeMap.mapValues] at hkv
  obtain ⟨kv0, _, heq⟩ := List.mem_map.mp hkv
  rw [← heq]
  exact hf kv0.fst kv0.snd

theorem fixupGo_inv {P : Nat → RadecoFunction → Prop} {Q : Nat → ImportInfo → Prop}
    {ws : List Nat} {i : Nat} {st : BTreeMap RadecoFunction × BTreeMap ImportInfo}
    (hP : EntryInv P st.fst) (hQ : EntryInv Q st.snd)
    (hPc : ∀ k v i2, P k v → P k { v with cgid := i2 })
    (hQc : ∀ k v i2, Q k v → Q k { v with rfn := { v.rfn with cgid := i2 } }) :
    EntryInv P (fixupGo i ws st).fst ∧ EntryInv Q (fixupGo i ws st).snd := by
  induction ws generalizing i st with
  | nil => exact ⟨hP, hQ⟩
  | cons w rest ih =>
    rw [fixupGo]
    refine ih ?_ ?_
    · rw [fixupEntry]
      by_cases h1 : (BTreeMap.find? w st.fst).isSome
      · rw [if_pos h1]
        exact entryInv_modify hP (fun v hv => hPc _ _ _ hv)
      · rw [if_neg h1]
        by_cases h2 : (BTreeMap.find? w st.snd).isSome
        · rw [if_pos h2]; exact hP
        · rw [if_neg h2]; exact hP
    · rw [fixupEntry]
      by_cases h1 : (BTreeMap.find? w st.fst).isSome
      · rw [if_pos h1]; exact hQ
      · rw [if_neg h1]
        by_cases h2 : (BTreeMap.find? w st.snd).isSome
        · rw [if_pos h2]
          exact entryInv_modify hQ (fun v hv => hQc _ _ _ hv)
        · rw [if_neg h2]; exact hQ

theorem mkImports_inv {import_info : List LImportInfo} {m : BTreeMap ImportInfo}
    (h : mkImports import_info = some m) :
    EntryInv (fun k v => v.plt = k ∧ v.rfn = ({} : RadecoFunction)) m := by
  have haux : ∀ (l : List LImportInfo) (m0 m1 : BTreeMap ImportInfo),
      l.foldlM
        (fun m ii =>
          match ii.plt with
          | some plt => do
            let name ← ii.name
            pure (BTreeMap.insert plt (ImportInfo.new_stub plt name) m)
          | none => pure m)
        m0 = some m1 →
      EntryInv (fun k v => v.plt = k ∧ v.rfn = ({} : RadecoFunction)) m0 →
      EntryInv (fun k v => v.plt = k ∧ v.rfn = ({} : RadecoFunction)) m1 := by
    intro l
    induction l with
    | nil =>
      intro m0 m1 h0 hm0
      simp only [List.foldlM] at h0
      cases h0; exact hm0
    | cons ii rest ih =>
      intro m0 m1 h0 hm0
      simp only [List.foldlM] at h0
      cases hplt : ii.plt with
      | none =>
        rw [hplt] at h0
        exact ih m0 m1 h0 hm0
      | some plt =>
        rw [hplt] at h0
        cases hname : ii.name with
        | none => rw [hname] at h0; simp [Option.bind, bind] at h0
        | some nm =>
          rw [hname] at h0
          simp only [Option.bind, bind, pure] at h0
          exact ih _ m1 h0 (entryInv_insert ⟨rfl, rfl⟩ hm0)
  exact haux import_info [] m h (fun kv hkv => by simp at hkv)

theorem foldlM_option_inv {P : Nat → RadecoFunction → Prop} {X : Type}
    {step : FLResult → X → Option FLResult} {l : List X} {acc res : FLResult}
    (h : l.foldlM step acc = some res)
    (hstep : ∀ a x a', step a x = some a' →
      EntryInv P a.functions → EntryInv P a'.functions)
    (hacc : EntryInv P acc.functions) : EntryInv P res.functions := by
  induction l generalizing acc with
  | nil =>
    simp only [List.foldlM] at h
    cases h; exact hacc
  | cons x rest ih =>
    simp only [List.foldlM] at h
    cases hx : step acc x with
    | none => rw [hx] at h; simp [Option.bind, bind] at h
    | some a' =>
      rw [hx] at h
      simp only [Option.bind, bind] at h
      exact ih h (hstep acc x a' hx hacc)

theorem symStep_inv {P : Nat → RadecoFunction → Prop} {acc a' : FLResult} {s : LSymbolInfo}
    (h : symStep acc s = some a')
    (hrec : ∀ n v z, P v ({ name := n, offset := v, size := z } : RadecoFunction))
    (hacc : EntryInv P acc.functions) : EntryInv P a'.functions := by
  rw [symStep] at h
  cases hn : s.name with
  | none => rw [hn] at h; cases h
  | some n =>
    rw [hn] at h
    cases hv : s.vaddr with
    | none => rw [hv] at h; cases h
    | some v =>
      rw [hv] at h
      cases hz : s.size with
      | none => rw [hz] at h; cases h
      | some z =>
        rw [hz] at h
        simp only [Option.bind, bind, pure, Option.some.injEq] at h
        rw [← h]
        exact entryInv_insert (hrec n v z) hacc

theorem srcStep_inv {P : Nat → RadecoFunction → Prop} {acc a' : FLResult} {f : FunctionInfo}
    (h : srcStep acc f = some a')
    (hrec : ∀ n v z, P v ({ name := n, offset := v, size := z } : RadecoFunction))
    (hacc : EntryInv P acc.functions) : EntryInv P a'.functions := by
  rw [srcStep] at h
  cases hv : f.offset with
  | none => rw [hv] at h; cases h
  | some v =>
    rw [hv] at h
    cases hz : f.size with
    | none => rw [hz] at h; cases h
    | some z =>
      rw [hz] at h
      cases hn : f.name with
      | none => rw [hn] at h; cases h
      | some n =>
        rw [hn] at h
        simp only [Option.bind, bind, pure, Option.some.injEq] at h
        rw [← h]
        exact entryInv_insert (hrec n v z) hacc

theorem strat_use_symbols_offInv {sm : Option Source} {acc fl : FLResult}
    {rmod : RadecoModule} (h : strat_use_symbols sm acc rmod = some fl) :
    EntryInv (fun k v => v.offset = k) fl.functions := by
  rw [strat_use_symbols] at h
  exact foldlM_option_inv h
    (fun a s a' hs hin => symStep_inv hs (fun n v z => rfl) hin)
    (fun kv hkv => by simp at hkv)

theorem strat_use_source_offInv {sm : Option Source} {acc fl : FLResult}
    {rmod : RadecoModule} (h : strat_use_source sm acc rmod = some fl)
    (hacc : EntryInv (fun k v => v.offset = k) acc.functions) :
    EntryInv (fun k v => v.offset = k) fl.functions := by
  unfold strat_use_source at h
  cases sm with
  | none =>
    replace h : some acc = some fl := h
    simp only [Option.some.injEq] at h
    rw [← h]; exact hacc
  | some src =>
    replace h : (match src.functions with
        | some functions => List.foldlM srcStep ({} : FLResult) functions
        | none => some ({} : FLResult)) = some fl := h
    cases hf : src.functions with
    | none =>
      rw [hf] at h
      simp only [Option.some.injEq] at h
      rw [← h]; intro kv hkv; simp at hkv
    | some fns =>
      rw [hf] at h
      exact foldlM_option_inv h
        (fun a f a' hs hin => srcStep_inv hs (fun n v z => rfl) hin)
        (fun kv hkv => by simp at hkv)

theorem runStage_offInv {sm : Option Source} {rmod : RadecoModule} {acc acc' : FLResult}
    {pl : PredicatedLoader} (h : FunctionLoader.runStage sm rmod acc pl = some acc')
    (hstrat : ∀ fl', pl.strategy sm acc rmod = some fl' →
      EntryInv (fun k v => v.offset = k) fl'.functions)
    (hacc : EntryInv (fun k v => v.offset = k) acc.functions) :
    EntryInv (fun k v => v.offset = k) acc'.functions := by
  rw [FunctionLoader.runStage] at h
  by_cases hp : pl.predicate acc
  · rw [if_pos hp] at h
    cases hs : pl.strategy sm acc rmod with
    | none => rw [hs] at h; cases h
    | some fl2 =>
      rw [hs] at h
      simp only [Option.some.injEq] at h
      rw [← h]
      exact entryInv_extend hacc (hstrat fl2 hs)
  · rw [if_neg hp] at h
    simp only [Option.some.injEq] at h
    rw [← h]; exact hacc

theorem defaultLoad_offInv {src : Source} {rmod : RadecoModule} {fl : FLResult}
    (h : FunctionLoader.load (FunctionLoader.include_defaults []) (some src) rmod = some fl) :
    EntryInv (fun k v => v.offset = k) fl.functions := by
  simp only [FunctionLoader.include_defaults, List.nil_append, FunctionLoader.load,
    FunctionLoader.loadFrom, List.foldlM] at h
  cases h1 : FunctionLoader.runStage (some src) rmod ({} : FLResult) useSymbolsLoader with
  | none => rw [h1] at h; simp [Option.bind, bind] at h
  | some acc1 =>
    rw [h1] at h
    simp only [Option.bind, bind] at h
    cases h2 : FunctionLoader.runStage (some src) rmod acc1 useSourceLoader with
    | none => rw [h2] at h; simp at h
    | some acc2 =>
      rw [h2] at h
      simp only [Option.some.injEq, pure] at h
      have hinv1 : EntryInv (fun k v => v.offset = k) acc1.functions :=
        runStage_offInv h1
          (fun fl' hs => strat_use_symbols_offInv
            (show strat_use_symbols (some src) ({} : FLResult) rmod = some fl' from hs))
          (fun kv hkv => by simp at hkv)
      have hinv2 : EntryInv (fun k v => v.offset = k) acc2.functions :=
        runStage_offInv h2
          (fun fl' hs => strat_use_source_offInv
            (show strat_use_source (some src) acc1 rmod = some fl' from hs) hinv1)
          hinv1
      rw [← h]; exact hinv2

theorem auxSteps_ok_inv {cfg : ModuleLoaderCfg} {src : Source} {rmod rmod2 : RadecoModule}
    {P : Nat → RadecoFunction → Prop} {Q : Nat → ImportInfo → Prop}
    (h : auxSteps cfg src rmod = Except.ok rmod2)
    (hP : EntryInv P rmod.functions) (hQ : EntryInv Q rmod.imports)
    (hPc : ∀ k v i, P k v → P k { v with cgid := i })
    (hPd : ∀ k v d, P k v → P k { v with datarefs := d })
    (hQc : ∀ k v i, Q k v → Q k { v with rfn := { v.rfn with cgid := i } }) :
    EntryInv P rmod2.functions ∧ EntryInv Q rmod2.imports := by
  simp only [auxSteps] at h
  by_cases hguard : cfg.build_callgraph || cfg.load_datarefs || cfg.load_locals
  · rw [if_pos hguard] at h
    have hcg : EntryInv P (if cfg.build_callgraph then
          cgStep (src.functions.getD []) rmod else rmod).functions ∧
        EntryInv Q (if cfg.build_callgraph then
          cgStep (src.functions.getD []) rmod else rmod).imports := by
      by_cases hbc : cfg.build_callgraph
      · rw [if_pos hbc]
        exact fixupGo_inv hP hQ hPc hQc
      · rw [if_neg hbc]
        exact ⟨hP, hQ⟩
    split at h
    · cases h
    · rename_i fns hd
      split at h
      · cases h
      · cases h
        constructor
        · show EntryInv P fns
          split at hd
          · exact datarefsStep_inv hd hcg.1 (fun k v d hv => hPd k v d hv)
          · cases hd; exact hcg.1
        · exact hcg.2
  · rw [if_neg hguard] at h
    cases h
    exact ⟨hP, hQ⟩

theorem bindingsSteps_ok_inv {cfg : ModuleLoaderCfg} {srf : SubRegisterFile}
    {rmod rmod' : RadecoModule}
    {P : Nat → RadecoFunction → Prop} {Q : Nat → ImportInfo → Prop}
    (h : bindingsSteps cfg srf rmod = Except.ok rmod')
    (hP : EntryInv P rmod.functions) (hQ : EntryInv Q rmod.imports)
    (hPb : ∀ k v v', P k v → ModuleLoader.init_fn_bindings v srf = some v' → P k v')
    (hQb : ∀ k v rfn2, Q k v → ModuleLoader.init_fn_bindings v.rfn srf = some rfn2 →
      Q k { v with rfn := rfn2 }) :
    EntryInv P rmod'.functions ∧ EntryInv Q rmod'.imports := by
  rw [bindingsSteps] at h
  by_cases hguard : cfg.build_callgraph && cfg.assume_cc
  · rw [if_pos hguard] at h
    cases hfns : initAllBindings srf rmod.functions with
    | error e => rw [hfns] at h; cases h
    | ok fns =>
      rw [hfns] at h
      cases himps : initAllImportBindings srf rmod.imports with
      | error e => rw [himps] at h; cases h
      | ok imps =>
        rw [himps] at h
        cases h
        exact ⟨initAllBindings_inv hfns hP hPb, initAllImportBindings_inv himps hQ hQb⟩
  · rw [if_neg hguard] at h
    cases h
    exact ⟨hP, hQ⟩

theorem load_ok_decomp {cfg : ModuleLoaderCfg} {src : Source} {rmod : RadecoModule}
    (h : ModuleLoader.load cfg src = Except.ok rmod) :
    ∃ imports0 flresult reg_p rmod2,
      mkImports (src.imports.getD []) = some imports0 ∧
      FunctionLoader.load (FunctionLoader.include_defaults []) (some src)
        { symbols := src.symbols.getD [], imports := imports0 } = some flresult ∧
      src.register_profile = some reg_p ∧
      auxSteps cfg src
        { symbols := src.symbols.getD []
          imports :=
            if cfg.stub_imports then ssaConstructImports reg_p cfg.assume_cc imports0
            else imports0
          callgraph := {}
          functions :=
            if cfg.build_ssa then
              ssaConstructAll reg_p cfg.assume_cc
                (loadInstructions src (applyFilter cfg.filterF flresult.functions))
            else loadInstructions src (applyFilter cfg.filterF flresult.functions) } =
        Except.ok rmod2 ∧
      bindingsSteps cfg (SubRegisterFile.new reg_p) rmod2 = Except.ok rmod := by
  simp only [ModuleLoader.load] at h
  split at h
  · cases h
  · rename_i imports0 h1
    split at h
    · cases h
    · rename_i flresult h2
      split at h
      · cases h
      · rename_i reg_p h3
        split at h
        · cases h
        · rename_i rmod2 h4
          exact ⟨imports0, flresult, reg_p, rmod2, h1, h2, h3, h4, h⟩

theorem load_error_classify {cfg : ModuleLoaderCfg} {src : Source} {e : LoadFatal}
    (h : ModuleLoader.load cfg src = Except.error e) :
    e = LoadFatal.importNameMissing ∨ e = LoadFatal.strategyUnwrapFailed ∨
    e = LoadFatal.registerProfileMissing ∨ e = LoadFatal.auxOffsetMissing ∨
    (cfg.load_locals = true ∧ e = LoadFatal.localsUnimplemented) ∨
    (cfg.load_locals = false ∧ e = LoadFatal.bindingsAssertFailed) := by
  simp only [ModuleLoader.load] at h
  split at h
  · cases h; exact Or.inl rfl
  · split at h
    · cases h; exact Or.inr (Or.inl rfl)
    · split at h
      · cases h; exact Or.inr (Or.inr (Or.inl rfl))
      · split at h
        · rename_i e2 h4
          cases h
          rcases auxSteps_error h4 with h5 | h5
          · exact Or.inr (Or.inr (Or.inr (Or.inl h5)))
          · exact Or.inr (Or.inr (Or.inr (Or.inr (Or.inl h5))))
        · rename_i rmod2 h4
          have hll : cfg.load_locals = false := by
            by_contra hc
            exact auxSteps_locals_fail (Bool.of_not_eq_false hc) rmod2 h4
          exact Or.inr (Or.inr (Or.inr (Or.inr (Or.inr ⟨hll, bindingsSteps_error h⟩))))

/-! ## The claims -/

/-- Claim C1: the spec says `callers(n)` yields, for each incoming edge,
the pair `(edge.csite, edge.source)`.  The source code maps each incoming
edge reference to `(er.weight().csite, er.target())`, and the target of an
incoming edge is the queried node itself: on the two-node graph `cgC1` with
the single edge `0 → 1` at call site `0x1004`, `callers 1` yields
`(0x1004, 1)` — the queried node, not the caller `(0x1004, 0)` that the
claim (and the function's own `Return a list of callers` comment) promise.
`callees 0` does yield `(0x1004, 1)` as claimed. -/
theorem c1_callers_yields_target_not_source :
    CallGraph.callers cgC1 1 = [(4100, 1)] ∧
    CallGraph.callers cgC1 1 ≠ [(4100, 0)] ∧
    CallGraph.callees cgC1 0 = [(4100, 1)] := by
  exact ⟨rfl, by decide, rfl⟩

/-- Claim C2 (counterexample): with `build_ssa` off and `stub_imports` on
(`cfgC2`), loading `srcC2` still constructs the SSA of the import at PLT
`0x400` — its SSA is the constructed one, not the default — refuting the
claim that no import SSA is constructed when `build_ssa` is off. -/
theorem c2_counterexample :
    cfgC2.build_ssa = false ∧ cfgC2.stub_imports = true ∧
    ((ModuleLoader.load cfgC2 srcC2).toOption.bind
        (fun rmod => BTreeMap.find? 1024 rmod.imports)).map (fun ifn => ifn.rfn.ssa) =
      some (mkConstructedSSA regW) ∧
    mkConstructedSSA regW ≠ ({} : SSAStorage) := by
  refine ⟨rfl, rfl, by decide, by decide⟩

/-- Claim C2 (amended): in `ModuleLoader::load`, SSA construction for each
import's inner function is controlled by `stub_imports` alone — the
`stub_imports` loop sits outside the `build_ssa` conditional.  In every
successfully loaded module, an import's inner SSA is the constructed SSA
exactly when `stub_imports` is set, and stays at its default otherwise,
independent of `build_ssa`. -/
theorem c2_import_ssa_iff_stub_imports (cfg : ModuleLoaderCfg) (src : Source)
    (rmod : RadecoModule) (reg_p : LRegInfo)
    (hreg : src.register_profile = some reg_p)
    (h : ModuleLoader.load cfg src = Except.ok rmod) :
    ∀ kv ∈ rmod.imports,
      kv.snd.rfn.ssa =
        if cfg.stub_imports then mkConstructedSSA reg_p else ({} : SSAStorage) := by
  obtain ⟨imports0, flresult, reg_p2, rmod2, h1, h2, h3, h4, h5⟩ := load_ok_decomp h
  rw [hreg] at h3
  cases h3
  have hQ0 : EntryInv
      (fun _ v => v.rfn.ssa =
        if cfg.stub_imports then mkConstructedSSA reg_p else ({} : SSAStorage))
      (if cfg.stub_imports then ssaConstructImports reg_p cfg.assume_cc imports0
       else imports0) := by
    cases hstub : cfg.stub_imports with
    | true =>
      simp only [ssaConstructImports, if_true]
      exact entryInv_mapValues_of _ (fun k v => rfl)
    | false =>
      simp only [Bool.false_eq_true, if_false]
      intro kv hkv
      rw [(mkImports_inv h1 kv hkv).2]
  have ⟨_, ha2⟩ := auxSteps_ok_inv (P := fun _ _ => True) h4
    (fun _ _ => trivial) hQ0 (fun _ _ _ _ => trivial) (fun _ _ _ _ => trivial)
    (fun k v i hv => hv)
  have ⟨_, hb2⟩ := bindingsSteps_ok_inv (P := fun _ _ => True) h5
    (fun _ _ => trivial) ha2 (fun _ _ _ _ _ => trivial)
    (fun k v rfn2 hv hinit => by
      obtain ⟨b, hb⟩ := init_fn_bindings_shape hinit
      rw [hb]
      exact hv)
  exact fun kv hkv => hb2 kv hkv

/-- Claim C2 (witness): the amended statement applied to `cfgC2`/`srcC2`. -/
theorem c2_witness :
    ModuleLoader.load cfgC2 srcC2 = Except.ok rmodC2 ∧
    rmodC2.imports.all (fun kv => decide (kv.snd.rfn.ssa =
      if cfgC2.stub_imports then mkConstructedSSA regW else ({} : SSAStorage))) := by
  have h : ModuleLoader.load cfgC2 srcC2 = Except.ok rmodC2 := by decide
  have h2 := c2_import_ssa_iff_stub_imports cfgC2 srcC2 rmodC2 regW rfl h
  refine ⟨h, ?_⟩
  rw [List.all_eq_true]
  intro kv hkv
  exact decide_eq_true (h2 kv hkv)

/-- Claim C3 (counterexample): `strat_use_symbols` unwraps `name`, `vaddr`
and `size` of every `Func` symbol, so a `Func` symbol lacking a name is not
silently discarded — the strategy panics (modelled as `none`) instead of
returning a result, refuting "the built-in use-symbols strategy never
fails". -/
theorem c3_counterexample :
    strat_use_symbols none ({} : FLResult) rmodC3bad = none ∧
    (rmodC3bad.symbols.filter isFuncSym).length = 1 := by
  exact ⟨rfl, rfl⟩

/-- Claim C3 (amended): a `Func` symbol lacking `name`, `vaddr` or `size`
makes `strat_use_symbols` panic rather than being silently discarded.  When
every `Func` symbol carries all three fields, the strategy succeeds, its
counter is the number of `Func` symbols, and (when their addresses are
distinct, `vaddr` being the map key) the map holds, per `Func` symbol, the
record with its `name`, `offset = vaddr` and `size`. -/
theorem c3_wellformed_symbols_succeed (source : Option Source) (fl : FLResult)
    (rmod : RadecoModule)
    (hwf : ∀ s ∈ rmod.symbols, isFuncSym s = true →
      s.name.isSome ∧ s.vaddr.isSome ∧ s.size.isSome)
    (hnd : ((rmod.symbols.filter isFuncSym).map (fun s => s.vaddr.getD 0)).Nodup) :
    ∃ res, strat_use_symbols source fl rmod = some res ∧
      res.new = (rmod.symbols.filter isFuncSym).length ∧
      ∀ s ∈ rmod.symbols.filter isFuncSym,
        BTreeMap.find? (s.vaddr.getD 0) res.functions = some (symRecord s) := by
  obtain ⟨res, hres, hnew, hfns⟩ := symFold_ok (rmod.symbols.filter isFuncSym) {}
    (fun s hs => hwf s (List.mem_of_mem_filter hs) (List.of_mem_filter hs))
  refine ⟨res, hres, by rw [hnew]; exact Nat.zero_add _, ?_⟩
  intro s hs
  rw [hfns]
  exact find?_symInserts [] hs hnd

/-- Claim C3 (witness): the amended statement applied to the module with
the single well-formed `Func` symbol `{name: "main", vaddr: 0x1000,
size: 16}`. -/
theorem c3_witness :
    (strat_use_symbols none ({} : FLResult) rmodC3good).map
        (fun res => (res.new, BTreeMap.find? 4096 res.functions)) =
      some (1, some (symRecord symMain)) := by
  obtain ⟨res, hres, hnew, hfind⟩ :=
    c3_wellformed_symbols_succeed none ({} : FLResult) rmodC3good
      (by decide) (by decide)
  have h1 : BTreeMap.find? 4096 res.functions = some (symRecord symMain) :=
    hfind symMain (by decide)
  have h2 : res.new = 1 := by rw [hnew]; rfl
  rw [hres]
  simp only [Option.map]
  rw [h1, h2]

/-- Claim C4: the identification pipeline is the left fold of
`FunctionLoader::load`: running `[S1, S2]` equals running `[S1]` and then
applying the single merge stage for `S2` (predicate on the accumulator,
`extend` of the functions maps, sum of counters); `extend` lets the later
map win on key collision; `include_defaults` appends the symbols strategy
before the source strategy. -/
theorem c4_pipeline_fold :
    (∀ (s1 s2 : PredicatedLoader) (sm : Option Source) (rm : RadecoModule),
      FunctionLoader.load [s1, s2] sm rm =
        (FunctionLoader.load [s1] sm rm).bind
          (fun acc => FunctionLoader.runStage sm rm acc s2)) ∧
    (∀ (k : Nat) (a b : BTreeMap RadecoFunction), (b.map Prod.fst).Nodup →
      BTreeMap.find? k (BTreeMap.extend a b) =
        if (BTreeMap.find? k b).isSome then BTreeMap.find? k b
        else BTreeMap.find? k a) ∧
    (∀ strategies, FunctionLoader.include_defaults strategies =
      strategies ++ [useSymbolsLoader, useSourceLoader]) := by
  exact ⟨runStage_two, fun k a b h => BTreeMap.find?_extend a b k h, fun _ => rfl⟩

/-- Claim C4 (witness): the collision clause applied to two concrete maps
that collide on key `1`: the later strategy's entry wins there, the
non-colliding key `3` survives. -/
theorem c4_witness :
    (bW4.map Prod.fst).Nodup ∧
    BTreeMap.find? 1 (BTreeMap.extend aW4 bW4) = some ({ name := "b" } : RadecoFunction) ∧
    BTreeMap.find? 3 (BTreeMap.extend aW4 bW4) = some ({ name := "c" } : RadecoFunction) := by
  have hnd : (bW4.map Prod.fst).Nodup := by decide
  refine ⟨hnd, ?_, ?_⟩
  · rw [c4_pipeline_fold.2.1 1 aW4 bW4 hnd]; rfl
  · rw [c4_pipeline_fold.2.1 3 aW4 bW4 hnd]; rfl

/-- Claim C5: after the call-graph fix-up loop, every node whose weight is
a key of `functions` or of `imports` has had the located entry's `cgid`
set to the node index, `functions` being consulted first (an address that
is a key of both maps gets its `functions` entry updated and its `imports`
entry left alone). -/
theorem c5_cgid_fixup (g : CallGraph) (fns : BTreeMap RadecoFunction)
    (imps : BTreeMap ImportInfo) (nidx w : Nat)
    (hnd : g.node_weights.Nodup) (hget : g.node_weights.get? nidx = some w) :
    (∀ rfn, BTreeMap.find? w fns = some rfn →
      BTreeMap.find? w (fixupCgids g fns imps).fst = some { rfn with cgid := nidx } ∧
      BTreeMap.find? w (fixupCgids g fns imps).snd = BTreeMap.find? w imps) ∧
    (BTreeMap.find? w fns = none →
      ∀ ifn, BTreeMap.find? w imps = some ifn →
        BTreeMap.find? w (fixupCgids g fns imps).snd =
          some { ifn with rfn := { ifn.rfn with cgid := nidx } } ∧
        BTreeMap.find? w (fixupCgids g fns imps).fst = none) := by
  have h := fixupGo_spec (l := g.node_weights) (n := nidx) (w := w) (i := 0)
    (s := (fns, imps)) hnd hget
  simpa using h

/-- Claim C5 (witness): on the two-node graph whose weight `0x1000` is a
key of both maps, the fix-up writes `cgid = 0` into the `functions` entry
and leaves the `imports` entry at that address untouched. -/
theorem c5_witness :
    gW5.node_weights.Nodup ∧
    BTreeMap.find? 4096 (fixupCgids gW5 fnsW5 impsW5).fst = some { fnMain with cgid := 0 } ∧
    BTreeMap.find? 4096 (fixupCgids gW5 fnsW5 impsW5).snd = BTreeMap.find? 4096 impsW5 := by
  have hnd : gW5.node_weights.Nodup := by decide
  have h := c5_cgid_fixup gW5 fnsW5 impsW5 0 4096 hnd rfl
  obtain ⟨h1, h2⟩ := h.1 fnMain rfl
  exact ⟨hnd, h1, h2⟩

/-- Claim C6: in every module `ModuleLoader::load` returns, each key of
`functions` equals its value's `offset` and each key of `imports` equals
its value's `plt` — established when the maps are populated (strategies
insert at `rfn.offset`, import stubs at their `plt`) and preserved by every
later step (instruction loading, SSA construction, call-graph fix-up,
datarefs, binding initialization), none of which touches those fields. -/
theorem c6_map_keys_invariant (cfg : ModuleLoaderCfg) (src : Source)
    (rmod : RadecoModule) (h : ModuleLoader.load cfg src = Except.ok rmod) :
    (∀ kv ∈ rmod.functions, kv.snd.offset = kv.fst) ∧
    (∀ kv ∈ rmod.imports, kv.snd.plt = kv.fst) := by
  obtain ⟨imports0, flresult, reg_p, rmod2, h1, h2, h3, h4, h5⟩ := load_ok_decomp h
  have hoff0 : EntryInv (fun k v => v.offset = k) flresult.functions :=
    defaultLoad_offInv h2
  have hoff1 : EntryInv (fun k v => v.offset = k)
      (applyFilter cfg.filterF flresult.functions) := by
    cases hF : cfg.filterF with
    | none => exact hoff0
    | some f => exact entryInv_filter _ hoff0
  have hoff2 : EntryInv (fun k v => v.offset = k)
      (loadInstructions src (applyFilter cfg.filterF flresult.functions)) :=
    entryInv_mapValues hoff1 (fun k v hv => hv)
  have hoff3 : EntryInv (fun k v => v.offset = k)
      (if cfg.build_ssa then
        ssaConstructAll reg_p cfg.assume_cc
          (loadInstructions src (applyFilter cfg.filterF flresult.functions))
      else loadInstructions src (applyFilter cfg.filterF flresult.functions)) := by
    cases cfg.build_ssa with
    | true =>
      simp only [if_true, ssaConstructAll]
      exact entryInv_mapValues hoff2 (fun k v hv => hv)
    | false =>
      simp only [Bool.false_eq_true, if_false]
      exact hoff2
  have hplt0 : EntryInv (fun k v => v.plt = k) imports0 :=
    fun kv hkv => (mkImports_inv h1 kv hkv).1
  have hplt1 : EntryInv (fun k v => v.plt = k)
      (if cfg.stub_imports then ssaConstructImports reg_p cfg.assume_cc imports0
       else imports0) := by
    cases cfg.stub_imports with
    | true =>
      simp only [if_true, ssaConstructImports]
      exact entryInv_mapValues hplt0 (fun k v hv => hv)
    | false =>
      simp only [Bool.false_eq_true, if_false]
      exact hplt0
  have ⟨ha1, ha2⟩ := auxSteps_ok_inv h4 hoff3 hplt1
    (fun k v i hv => hv) (fun k v d hv => hv) (fun k v i hv => hv)
  have ⟨hb1, hb2⟩ := bindingsSteps_ok_inv h5 ha1 ha2
    (fun k v v' hv hinit => by
      obtain ⟨b, hb⟩ := init_fn_bindings_shape hinit
      rw [hb]; exact hv)
    (fun k v rfn2 hv hinit => hv)
  exact ⟨hb1, hb2⟩

/-- Claim C6 (witness): the invariant applied to the module produced for
the default configuration and the small source with one symbol and one
import. -/
theorem c6_witness :
    ModuleLoader.load cfgW6 srcW6 = Except.ok rmodW6 ∧
    rmodW6.functions.all (fun kv => decide (kv.snd.offset = kv.fst)) ∧
    rmodW6.imports.all (fun kv => decide (kv.snd.plt = kv.fst)) := by
  have h : ModuleLoader.load cfgW6 srcW6 = Except.ok rmodW6 := by decide
  have h2 := c6_map_keys_invariant cfgW6 srcW6 rmodW6 h
  refine ⟨h, ?_, ?_⟩
  · rw [List.all_eq_true]
    intro kv hkv
    exact decide_eq_true (h2.1 kv hkv)
  · rw [List.all_eq_true]
    intro kv hkv
    exact decide_eq_true (h2.2 kv hkv)

/-- Claim C7: `init_fn_bindings`, given entry/exit register snapshots,
overwrites only the function's bindings with the stable sort (by the
register-argument-first, position-ascending comparator) of the bindings
emitted per alias-table entry naming `A0..A5`/`SN` (`emitBinding` carries
the per-alias content: `RegisterArgument(pos)`/`Return`, `idx` resolved
from the matching snapshot comment with the end-index fallback, `ridx` from
`register_id_by_alias`); the result is a permutation of the emitted
bindings, is sorted so that every `RegisterArgument` precedes every other
kind with positions ascending, and keeps the non-argument bindings in their
original relative order. -/
theorem c7_init_fn_bindings (rfn : RadecoFunction) (srf : SubRegisterFile)
    (es xs : List Nat) (h : entryExitStates rfn = some (es, xs)) :
    ∃ rfn2,
      ModuleLoader.init_fn_bindings rfn srf = some rfn2 ∧
      rfn2 = { rfn with bindings := rfn2.bindings } ∧
      rfn2.bindings.Perm (srf.alias_info.filterMap (emitBinding rfn srf es xs)) ∧
      List.Pairwise (fun a b => bindCmp a b ≠ Ordering.gt) rfn2.bindings ∧
      rfn2.bindings.filter (fun b => !(isRA b)) =
        (srf.alias_info.filterMap (emitBinding rfn srf es xs)).filter
          (fun b => !(isRA b)) := by
  refine ⟨{ rfn with bindings := stableSortB (srf.alias_info.filterMap (emitBinding rfn srf es xs)) }, ?_, rfl, ?_, ?_, ?_⟩
  · rw [ModuleLoader.init_fn_bindings, h]
  · exact stableSortB_perm _
  · exact pairwise_stableSortB _
  · exact filter_nonRA_stableSortB _

/-- Claim C7 (witness): spec scenario (e) — aliases `A0 → rdi`,
`A1 → rsi`, `SN → rax`, entry snapshot commenting `rsi, rdi`, exit
snapshot commenting `rax`: the bindings come out as
`RegisterArgument(0) → node 11 (rdi)`, `RegisterArgument(1) → node 10
(rsi)`, `Return → node 12 (rax)`, in that order. -/
theorem c7_witness :
    entryExitStates fnW7 = some ([10, 11], [12]) ∧
    (ModuleLoader.init_fn_bindings fnW7 srfW7).isSome ∧
    List.Pairwise (fun a b => bindCmp a b ≠ Ordering.gt)
      ((ModuleLoader.init_fn_bindings fnW7 srfW7).getD ({} : RadecoFunction)).bindings ∧
    ((ModuleLoader.init_fn_bindings fnW7 srfW7).getD ({} : RadecoFunction)).bindings.map
        (fun b => (b.btype, b.idx, b.ridx)) =
      [(BindingType.RegisterArgument 0, 11, some 5),
       (BindingType.RegisterArgument 1, 10, some 6),
       (BindingType.Return, 12, some 0)] := by
  obtain ⟨rfn2, h1, _, _, hpw, _⟩ := c7_init_fn_bindings fnW7 srfW7 [10, 11] [12] rfl
  refine ⟨rfl, ?_, ?_, by decide⟩
  · rw [h1]; rfl
  · rw [h1]
    exact hpw

/-- Claim C8 (counterexample): with no `Source`, the use-source strategy
returns a clone of the accumulator, and the pipeline stage then adds
`fl.new` — the accumulator's own counter — back onto it: starting from the
accumulator with one function and `new = 1`, the stage yields `new = 2`,
refuting "the accumulated new counter equal to its value before the
stage". -/
theorem c8_counterexample :
    FunctionLoader.runStage none ({} : RadecoModule) accW8 useSourceLoader =
      some { functions := accW8.functions, new := 2 } ∧
    accW8.new = 1 := by
  exact ⟨by decide, rfl⟩

/-- Claim C8 (amended): with no `Source`, `strat_use_source` passes the
input accumulator through unchanged; a pipeline stage running it therefore
leaves the accumulated functions map unchanged (extending a map with
itself) but doubles the accumulated `new` counter (`acc.new += fl.new` with
`fl` a clone of `acc`). -/
theorem c8_no_source_passthrough :
    (∀ (fl : FLResult) (rmod : RadecoModule), strat_use_source none fl rmod = some fl) ∧
    (∀ (acc : FLResult) (rmod : RadecoModule), BTreeMap.WF acc.functions →
      FunctionLoader.runStage none rmod acc useSourceLoader =
        some { functions := acc.functions, new := acc.new + acc.new }) := by
  constructor
  · intro fl rmod; rfl
  · intro acc rmod hwf
    calc FunctionLoader.runStage none rmod acc useSourceLoader
        = some { functions := BTreeMap.extend acc.functions acc.functions,
                 new := acc.new + acc.new } := rfl
      _ = some { functions := acc.functions, new := acc.new + acc.new } := by
          rw [BTreeMap.extend_self acc.functions hwf]

/-- Claim C8 (witness): the amended statement applied to the accumulator
with one function and counter `1`: the functions map survives, the counter
becomes `2`. -/
theorem c8_witness :
    BTreeMap.WF accW8.functions ∧
    FunctionLoader.runStage none ({} : RadecoModule) accW8 useSourceLoader =
      some { functions := accW8.functions, new := accW8.new + accW8.new } := by
  have hwf : BTreeMap.WF accW8.functions := by decide
  exact ⟨hwf, c8_no_source_passthrough.2 accW8 ({} : RadecoModule) hwf⟩

/-- Claim C9: `load_locals` is refused, never silently skipped: with
`load_locals` set, `ModuleLoader::load` never returns a module, and
whenever no earlier panic fires first (imports, strategies, register
profile, datarefs offsets), it fails with precisely the
`unimplemented!()` of the locals step; without `load_locals`, that failure
is unreachable. -/
theorem c9_load_locals_refused :
    (∀ (cfg : ModuleLoaderCfg) (src : Source), cfg.load_locals = true →
      ∀ rmod, ModuleLoader.load cfg src ≠ Except.ok rmod) ∧
    (∀ (cfg : ModuleLoaderCfg) (src : Source), cfg.load_locals = true →
      ModuleLoader.load cfg src ≠ Except.error LoadFatal.importNameMissing →
      ModuleLoader.load cfg src ≠ Except.error LoadFatal.strategyUnwrapFailed →
      ModuleLoader.load cfg src ≠ Except.error LoadFatal.registerProfileMissing →
      ModuleLoader.load cfg src ≠ Except.error LoadFatal.auxOffsetMissing →
      ModuleLoader.load cfg src = Except.error LoadFatal.localsUnimplemented) ∧
    (∀ (cfg : ModuleLoaderCfg) (src : Source), cfg.load_locals = false →
      ModuleLoader.load cfg src ≠ Except.error LoadFatal.localsUnimplemented) := by
  refine ⟨?_, ?_, ?_⟩
  · intro cfg src hl rmod h
    obtain ⟨_, _, _, rmod2, _, _, _, h4, _⟩ := load_ok_decomp h
    exact auxSteps_locals_fail hl rmod2 h4
  · intro cfg src hl h1 h2 h3 h4
    cases hres : ModuleLoader.load cfg src with
    | ok rmod =>
      obtain ⟨_, _, _, rmod2, _, _, _, ha, _⟩ := load_ok_decomp hres
      exact absurd ha (auxSteps_locals_fail hl rmod2)
    | error e =>
      rcases load_error_classify hres with he | he | he | he | he | he
      · exact absurd (he ▸ hres) h1
      · exact absurd (he ▸ hres) h2
      · exact absurd (he ▸ hres) h3
      · exact absurd (he ▸ hres) h4
      · rw [he.2]
      · rw [he.1] at hl; cases hl
  · intro cfg src hl h
    rcases load_error_classify h with he | he | he | he | he | he
    · cases he
    · cases he
    · cases he
    · cases he
    · rw [he.1] at hl; cases hl
    · cases he.2

/-- Claim C9 (witness): the refusal applied to the all-else-well source
`srcW6` with only `load_locals` enabled. -/
theorem c9_witness :
    cfgW9.load_locals = true ∧
    ModuleLoader.load cfgW9 srcW6 = Except.error LoadFatal.localsUnimplemented := by
  refine ⟨rfl, ?_⟩
  exact c9_load_locals_refused.2.1 cfgW9 srcW6 rfl (by decide) (by decide) (by decide)
    (by decide)

/-- Claim C10: `init_fn_bindings` asserts entry node, exit node, and a
register snapshot at each (it succeeds exactly when the snapshot block
does, i.e. when the SSA exposes all four), it fails on the default-empty
SSA, and consequently the module loader with `build_callgraph` and
`assume_cc` both on and `build_ssa` off aborts with the bindings assertion
on a module whose function has its default SSA. -/
theorem c10_bindings_assertion :
    ModuleLoader.load cfgC10 srcW6 = Except.error LoadFatal.bindingsAssertFailed ∧
    cfgC10.build_ssa = false ∧
    (∀ (rfn : RadecoFunction) (srf : SubRegisterFile),
      (ModuleLoader.init_fn_bindings rfn srf).isSome ↔
        ∃ e x, rfn.ssa.entry_node = some e ∧ rfn.ssa.exit_node = some x ∧
          (rfn.ssa.registers_in e).isSome ∧ (rfn.ssa.registers_in x).isSome) ∧
    (∀ srf : SubRegisterFile,
      ModuleLoader.init_fn_bindings ({} : RadecoFunction) srf = none) := by
  refine ⟨by decide, rfl, ?_, fun srf => rfl⟩
  intro rfn srf
  rw [ModuleLoader.init_fn_bindings]
  constructor
  · intro hsome
    cases hs : entryExitStates rfn with
    | none => rw [hs] at hsome; cases hsome
    | some states =>
      rw [entryExitStates] at hs
      cases he : rfn.ssa.entry_node with
      | none => rw [he] at hs; cases hs
      | some e =>
        rw [he] at hs
        simp only [Option.bind, bind] at hs
        cases hx : rfn.ssa.exit_node with
        | none => rw [hx] at hs; cases hs
        | some x =>
          rw [hx] at hs
          simp only [Option.bind, bind] at hs
          cases hre : rfn.ssa.registers_in e with
          | none => rw [hre] at hs; cases hs
          | some re =>
            rw [hre] at hs
            simp only [Option.bind, bind] at hs
            cases hrx : rfn.ssa.registers_in x with
            | none => rw [hrx] at hs; cases hs
            | some rx =>
              exact ⟨e, x, rfl, rfl, by rw [hre]; rfl, by rw [hrx]; rfl⟩
  · intro ⟨e, x, he, hx, hre, hrx⟩
    obtain ⟨re, hre⟩ := Option.isSome_iff_exists.mp hre
    obtain ⟨rx, hrx⟩ := Option.isSome_iff_exists.mp hrx
    have hs : entryExitStates rfn =
        some (rfn.ssa.operands_of re, rfn.ssa.operands_of rx) := by
      rw [entryExitStates, he, hx]
      simp only [Option.bind, bind]
      rw [hre, hrx]
      rfl
    rw [hs]
    rfl

end Radeco
